import Mathlib

/-!
Verification development for the getgmail repository (Go).

The definitions below are a shallow embedding, translated from the Go
sources:
  * part_006 (final version of pkg/gmail/client.go): message retrieval,
    body extraction, attachment extraction, retry classification;
  * part_005 (final version of pkg/output/writer.go): folder/name
    planning, date parsing, sanitization, output materialization;
  * cmd/download.go (final version): the run loop and its counters.

Modelling conventions:
  * A Go string is a byte sequence; we model it as `GoStr := List Char`
    where every `Char` stands for one byte (code points 0..255 for data
    produced by base64 decoding, plain ASCII for literals).  All the
    byte-level Go operations used by the sources (substring search,
    slicing, trimming, ReplaceAll with one-byte patterns) coincide with
    the corresponding operations on this representation.
  * Remote calls are modelled by oracle functions supplied as explicit
    parameters; timeouts, sleeps and context cancellation are real-time
    constructs and are not modelled.
  * A Go `map` has unspecified iteration order; we model it as an
    association list whose insertion (`mapSet`) overwrites in place, a
    deterministic refinement.  All properties proved about map-derived
    sequences are order-independent.
-/

/-- Go strings are byte sequences; one `Char` per byte. -/
abbrev GoStr := List Char

/-- View a Lean string literal (ASCII in this file) as a Go string. -/
def gs (s : String) : GoStr := s.data

/-- ASCII lower-casing of one byte, as Go `strings.ToLower` acts on the
ASCII range (all values compared by the sources are ASCII). -/
def goLowerChar (c : Char) : Char :=
  if 'A' ≤ c ∧ c ≤ 'Z' then Char.ofNat (c.toNat + 32) else c

/-- Go `strings.ToLower` restricted to the ASCII range. -/
def goToLower (s : GoStr) : GoStr := s.map goLowerChar

/-- Go `strings.Contains`: substring test on bytes. -/
def containsSub (hay needle : GoStr) : Bool :=
  if needle.isPrefixOf hay then true
  else
    match hay with
    | [] => false
    | _ :: t => containsSub t needle

/-- Go `strings.Index`: byte index of the first occurrence of `needle`,
`none` when absent (Go returns -1). -/
def indexOfSub (hay needle : GoStr) : Option Nat :=
  if needle.isPrefixOf hay then some 0
  else
    match hay with
    | [] => none
    | _ :: t => (indexOfSub t needle).map (· + 1)

/-- Go `strings.TrimSuffix`. -/
def trimSuffixStr (s suf : GoStr) : GoStr :=
  if suf.isSuffixOf s then s.take (s.length - suf.length) else s

/-- Whitespace bytes of Go `strings.TrimSpace` (ASCII part). -/
def isGoSpace (c : Char) : Bool :=
  c = ' ' ∨ c = '\t' ∨ c = '\n' ∨ c = '\x0d' ∨ c = '\x0b' ∨ c = '\x0c'

/-- Go `strings.TrimSpace` (ASCII whitespace). -/
def trimSpaceStr (s : GoStr) : GoStr :=
  ((s.dropWhile isGoSpace).reverse.dropWhile isGoSpace).reverse

/-- Go `strings.Trim(s, cutset)` for a one-byte cutset. -/
def trimCharStr (c : Char) (s : GoStr) : GoStr :=
  ((s.dropWhile (· = c)).reverse.dropWhile (· = c)).reverse

/-- Digit byte for one decimal digit value. -/
def digitChar (n : Nat) : Char := Char.ofNat (48 + n % 10)

/-- Decimal representation of a natural number, as Go `%d` prints it. -/
def natStr (n : Nat) : GoStr := (toString n).data

/-- Decimal representation of a Go integer, as Go `%d` prints it. -/
def intStr (n : Int) : GoStr := (toString n).data

/-! ## Base64 (Go `encoding/base64` URLEncoding)

`base64.URLEncoding.DecodeString` uses the URL alphabet (`-` and `_` for
62 and 63), requires `=` padding, ignores `\r` and `\n` bytes, and does
not check unused trailing bits.  We model exactly that for well-formed
quantum groups; any other input is a decode error. -/

/-- Value of one base64url alphabet byte. -/
def b64Val (c : Char) : Option Nat :=
  if 'A' ≤ c ∧ c ≤ 'Z' then some (c.toNat - 65)
  else if 'a' ≤ c ∧ c ≤ 'z' then some (c.toNat - 97 + 26)
  else if '0' ≤ c ∧ c ≤ '9' then some (c.toNat - 48 + 52)
  else if c = '-' then some 62
  else if c = '_' then some 63
  else none

/-- Decode 4-byte quanta; the final quantum may carry `=` padding. -/
def b64Quanta : GoStr → Option (List Nat)
  | [] => some []
  | a :: b :: c :: d :: rest =>
    match b64Val a, b64Val b with
    | some va, some vb =>
      if c = '=' then
        if d = '=' ∧ rest = [] then some [(va * 4 + vb / 16) % 256]
        else none
      else
        match b64Val c with
        | some vc =>
          if d = '=' then
            if rest = [] then
              some [(va * 4 + vb / 16) % 256, (vb % 16 * 16 + vc / 4) % 256]
            else none
          else
            match b64Val d with
            | some vd =>
              (b64Quanta rest).map
                (fun tail =>
                  (va * 4 + vb / 16) % 256 :: (vb % 16 * 16 + vc / 4) % 256 ::
                    (vc % 4 * 64 + vd) % 256 :: tail)
            | none => none
        | none => none
    | _, _ => none
  | _ => none

/-- Go `base64.URLEncoding.DecodeString`: drop `\r`/`\n`, decode quanta,
map the decoded bytes back to one-byte chars. -/
def b64Decode (s : GoStr) : Option GoStr :=
  (b64Quanta (s.filter (fun c => ¬ (c = '\x0d' ∨ c = '\n')))).map
    (fun l => l.map Char.ofNat)

/-! ## Data model (gmail API part tree and extracted results) -/

/-- Body of a message part (`gmail.MessagePartBody`): remote attachment
id, reported size (`int64`), and base64url-encoded inline data.  The Go
field is a nullable pointer; a part carries `Option MessagePartBody`. -/
structure MessagePartBody where
  attachmentId : GoStr
  size : Int
  data : GoStr
deriving DecidableEq

/-- One part-level header (`gmail.MessagePartHeader`). -/
structure MessagePartHeader where
  name : GoStr
  value : GoStr
deriving DecidableEq

mutual

/-- A node of the remote part tree (`gmail.MessagePart`): content kind,
headers, optional body, ordered children. -/
inductive MessagePart where
  | mk : GoStr → List MessagePartHeader → Option MessagePartBody → PartList → MessagePart

/-- The ordered children of a part, as a mutual list so that structural
recursion and induction over the nested tree stay elementary. -/
inductive PartList where
  | nil : PartList
  | cons : MessagePart → PartList → PartList

end

/-- Content kind of a part. -/
def MessagePart.mimeType : MessagePart → GoStr
  | .mk m _ _ _ => m

/-- Headers of a part. -/
def MessagePart.headers : MessagePart → List MessagePartHeader
  | .mk _ h _ _ => h

/-- Optional body of a part. -/
def MessagePart.body : MessagePart → Option MessagePartBody
  | .mk _ _ b _ => b

/-- Children of a part. -/
def MessagePart.parts : MessagePart → PartList
  | .mk _ _ _ ps => ps

/-- An extracted attachment (`interfaces.Attachment`). -/
structure Attachment where
  filename : GoStr
  mimeType : GoStr
  size : Int
  data : GoStr
  attachmentId : GoStr
deriving DecidableEq

/-- A fully fetched message (`interfaces.EmailMessage`); `headers` is the
Go map modelled as an association list (`mapSet` below is last-wins). -/
structure EmailMessage where
  id : GoStr
  subject : GoStr
  date : GoStr
  fromAddr : GoStr
  toAddr : GoStr
  body : GoStr
  bodyMimeType : GoStr
  headers : List (GoStr × GoStr)
  attachments : List Attachment
deriving DecidableEq

mutual

/-- Preorder listing of the nodes of a part tree: the node itself, then
its children depth-first, left to right.  This is the visit order of the
Go recursions (`recursiveExtractBody`, `extractAttachmentsRecursive`). -/
def preorderP : MessagePart → List MessagePart
  | .mk m h b ps => .mk m h b ps :: preorderL ps

/-- Preorder listing of a part list. -/
def preorderL : PartList → List MessagePart
  | .nil => []
  | .cons p ps => preorderP p ++ preorderL ps

end

/-! ## Body extraction (part_006, `extractBody` and helpers) -/

/-- The four `string` locations `recursiveExtractBody` mutates through
pointers (Go uses the empty string as the unfilled sentinel). -/
structure ExtractSt where
  htmlContent : GoStr
  plainContent : GoStr
  htmlMime : GoStr
  plainMime : GoStr
deriving DecidableEq

/-- One node's action in `recursiveExtractBody`: decode the inline data
when present and non-empty, then fill the first empty slot matching the
part's mime type.  Decode failures are silently skipped. -/
def extractStep (st : ExtractSt) (p : MessagePart) : ExtractSt :=
  match p.body with
  | some b =>
    if b.data ≠ [] then
      match b64Decode b.data with
      | some content =>
        if p.mimeType = gs "text/html" ∧ st.htmlContent = [] then
          { st with htmlContent := content, htmlMime := p.mimeType }
        else if p.mimeType = gs "text/plain" ∧ st.plainContent = [] then
          { st with plainContent := content, plainMime := p.mimeType }
        else st
      | none => st
    else st
  | none => st

mutual

/-- Go `recursiveExtractBody`: visit the node, then recurse into all
children, threading the four mutated strings. -/
def recursiveExtractBody : MessagePart → ExtractSt → ExtractSt
  | .mk m h b ps, st => recursiveExtractBodyL ps (extractStep st (.mk m h b ps))

/-- The `for _, part := range payload.Parts` loop of
`recursiveExtractBody`. -/
def recursiveExtractBodyL : PartList → ExtractSt → ExtractSt
  | .nil, st => st
  | .cons p ps, st => recursiveExtractBodyL ps (recursiveExtractBody p st)

end

/-- Text of the Go HTML template before the `%s` hole
(`wrapPlainTextAsHTML`). -/
def htmlTemplatePre : GoStr :=
  gs "<!DOCTYPE html>\n<html>\n<head>\n\t<meta charset=\"utf-8\">\n\t<title>Email Content</title>\n\t<style>\n\t\tbody \x7b\n\t\t\tfont-family: -apple-system, BlinkMacSystemFont, 'Segoe UI', Roboto, sans-serif;\n\t\t\tline-height: 1.6;\n\t\t\tmax-width: 800px;\n\t\t\tmargin: 20px;\n\t\t\tpadding: 20px;\n\t\t\x7d\n\t\tpre \x7b\n\t\t\twhite-space: pre-wrap;\n\t\t\tword-wrap: break-word;\n\t\t\tbackground-color: #f5f5f5;\n\t\t\tpadding: 15px;\n\t\t\tborder-radius: 5px;\n\t\t\tborder: 1px solid #ddd;\n\t\t\x7d\n\t</style>\n</head>\n<body>\n\t<pre>"

/-- Text of the Go HTML template after the `%s` hole. -/
def htmlTemplatePost : GoStr := gs "</pre>\n</body>\n</html>"

/-- Go `strings.ReplaceAll` for a one-byte pattern: every occurrence of
the byte is replaced, the replacement is not rescanned. -/
def replAllChar (pat : Char) (rep : GoStr) (s : GoStr) : GoStr :=
  s.flatMap (fun c => if c = pat then rep else [c])

/-- Go `wrapPlainTextAsHTML`: entity-escape `&`, `<`, `>`, `"`, `'` (in
that order) and splice into the fixed template. -/
def wrapPlainTextAsHTML (plainText : GoStr) : GoStr :=
  let e1 := replAllChar '&' (gs "&amp;") plainText
  let e2 := replAllChar '<' (gs "&lt;") e1
  let e3 := replAllChar '>' (gs "&gt;") e2
  let e4 := replAllChar '"' (gs "&quot;") e3
  let e5 := replAllChar '\'' (gs "&#39;") e4
  htmlTemplatePre ++ e5 ++ htmlTemplatePost

/-- Go `extractBody`: run the tree walk from empty slots; prefer the
recorded html content, else wrap the recorded plain content, else empty;
the reported kind is always `text/html` except when a html part supplied
its own (equal) mime string. -/
def extractBody (payload : MessagePart) : GoStr × GoStr :=
  let st := recursiveExtractBody payload ⟨[], [], [], []⟩
  if st.htmlContent ≠ [] then (st.htmlContent, st.htmlMime)
  else if st.plainContent ≠ [] then
    (wrapPlainTextAsHTML st.plainContent, gs "text/html")
  else ([], gs "text/html")

/-! ## Characterizing the body walk -/

/-- Specification-side candidate: the decoded inline content a part
offers for the html slot — present exactly when the part is
`text/html` and its inline data decodes to something non-empty. -/
def htmlCand (p : MessagePart) : Option GoStr :=
  if p.mimeType = gs "text/html" then
    match p.body with
    | some b =>
      match b64Decode b.data with
      | some d => if d ≠ [] then some d else none
      | none => none
    | none => none
  else none

/-- Specification-side candidate for the plain slot. -/
def plainCand (p : MessagePart) : Option GoStr :=
  if p.mimeType = gs "text/plain" then
    match p.body with
    | some b =>
      match b64Decode b.data with
      | some d => if d ≠ [] then some d else none
      | none => none
    | none => none
  else none

theorem b64Decode_nil : b64Decode [] = some [] := rfl

theorem html_ne_plain : gs "text/html" ≠ gs "text/plain" := by decide

theorem htmlCand_ne_nil {p : MessagePart} {d : GoStr} (h : htmlCand p = some d) :
    d ≠ [] := by
  unfold htmlCand at h
  repeat' split at h
  all_goals simp_all

theorem plainCand_ne_nil {p : MessagePart} {d : GoStr} (h : plainCand p = some d) :
    d ≠ [] := by
  unfold plainCand at h
  repeat' split at h
  all_goals simp_all

/-- One step of the walk changes the html slot exactly as `htmlCand`
prescribes (an empty decoded content leaves the sentinel empty). -/
theorem extractStep_htmlContent (st : ExtractSt) (p : MessagePart) :
    (extractStep st p).htmlContent =
      if st.htmlContent = [] then (htmlCand p).getD [] else st.htmlContent := by
  unfold extractStep htmlCand
  repeat' split
  all_goals simp_all [b64Decode_nil]

/-- One step of the walk changes the plain slot exactly as `plainCand`
prescribes. -/
theorem extractStep_plainContent (st : ExtractSt) (p : MessagePart) :
    (extractStep st p).plainContent =
      if st.plainContent = [] then (plainCand p).getD [] else st.plainContent := by
  unfold extractStep plainCand
  repeat' split
  all_goals simp_all [b64Decode_nil]
  all_goals exact absurd (by simp_all : gs "text/html" = gs "text/plain") html_ne_plain

/-- Folding the walk over a node list: the html slot ends holding the
first non-empty html candidate of the list (first-in-order wins). -/
theorem foldl_extractStep_html (l : List MessagePart) :
    ∀ st : ExtractSt,
      (List.foldl extractStep st l).htmlContent =
        if st.htmlContent = [] then ((l.filterMap htmlCand).head?).getD []
        else st.htmlContent := by
  induction l with
  | nil =>
    intro st
    by_cases h : st.htmlContent = [] <;> simp [h]
  | cons p t ih =>
    intro st
    rw [List.foldl_cons, ih]
    by_cases h : st.htmlContent = []
    · rcases hc : htmlCand p with _ | d
      · simp [extractStep_htmlContent, h, hc]
      · have hne := htmlCand_ne_nil hc
        simp [extractStep_htmlContent, h, hc, hne]
    · have : (extractStep st p).htmlContent = st.htmlContent := by
        simp [extractStep_htmlContent, h]
      simp [this, h]

/-- Folding the walk over a node list: the plain slot ends holding the
first non-empty plain candidate of the list. -/
theorem foldl_extractStep_plain (l : List MessagePart) :
    ∀ st : ExtractSt,
      (List.foldl extractStep st l).plainContent =
        if st.plainContent = [] then ((l.filterMap plainCand).head?).getD []
        else st.plainContent := by
  induction l with
  | nil =>
    intro st
    by_cases h : st.plainContent = [] <;> simp [h]
  | cons p t ih =>
    intro st
    rw [List.foldl_cons, ih]
    by_cases h : st.plainContent = []
    · rcases hc : plainCand p with _ | d
      · simp [extractStep_plainContent, h, hc]
      · have hne := plainCand_ne_nil hc
        simp [extractStep_plainContent, h, hc, hne]
    · have : (extractStep st p).plainContent = st.plainContent := by
        simp [extractStep_plainContent, h]
      simp [this, h]

/-- The walk only ever writes the literal `text/html` into the html mime
slot: a state whose filled html slot carries that mime keeps it. -/
theorem extractStep_mime_inv (st : ExtractSt) (p : MessagePart)
    (hP : st.htmlContent ≠ [] → st.htmlMime = gs "text/html") :
    (extractStep st p).htmlContent ≠ [] →
      (extractStep st p).htmlMime = gs "text/html" := by
  unfold extractStep
  repeat' split
  all_goals simp_all

/-- Invariant of `extractStep_mime_inv` carried through a fold. -/
theorem foldl_extractStep_mime (l : List MessagePart) :
    ∀ st : ExtractSt, (st.htmlContent ≠ [] → st.htmlMime = gs "text/html") →
      (List.foldl extractStep st l).htmlContent ≠ [] →
        (List.foldl extractStep st l).htmlMime = gs "text/html" := by
  induction l with
  | nil => intro st hP; exact hP
  | cons p t ih =>
    intro st hP
    rw [List.foldl_cons]
    exact ih _ (extractStep_mime_inv st p hP)

mutual

/-- The Go recursion is the fold of its per-node step over the preorder
node list. -/
theorem recursiveExtractBody_eq (p : MessagePart) (st : ExtractSt) :
    recursiveExtractBody p st = List.foldl extractStep st (preorderP p) :=
  match p with
  | .mk m h b ps => by
    rw [recursiveExtractBody, preorderP, List.foldl_cons]
    exact recursiveExtractBodyL_eq ps (extractStep st (.mk m h b ps))

/-- List version of `recursiveExtractBody_eq`. -/
theorem recursiveExtractBodyL_eq (ps : PartList) (st : ExtractSt) :
    recursiveExtractBodyL ps st = List.foldl extractStep st (preorderL ps) :=
  match ps with
  | .nil => rfl
  | .cons p ps2 => by
    rw [recursiveExtractBodyL, preorderL, List.foldl_append,
      recursiveExtractBody_eq p st, recursiveExtractBodyL_eq ps2]

end

/-- First non-empty decodable `text/html` inline content of the tree, in
depth-first preorder. -/
def firstHtmlContent (t : MessagePart) : Option GoStr :=
  ((preorderP t).filterMap htmlCand).head?

/-- First non-empty decodable `text/plain` inline content of the tree,
in depth-first preorder. -/
def firstPlainContent (t : MessagePart) : Option GoStr :=
  ((preorderP t).filterMap plainCand).head?

/-! ## Entity escaping: sequential ReplaceAll equals a one-pass map -/

/-- Specification-side escape of one byte: the five XML-sensitive
characters become entities, everything else passes through. -/
def escChar (c : Char) : GoStr :=
  if c = '&' then gs "&amp;"
  else if c = '<' then gs "&lt;"
  else if c = '>' then gs "&gt;"
  else if c = '"' then gs "&quot;"
  else if c = '\'' then gs "&#39;"
  else [c]

/-- Specification-side one-pass entity escape.  Because the ampersand is
replaced first in the Go code, introduced entities are never re-escaped,
which is exactly what a one-pass map expresses. -/
def escapeFive (s : GoStr) : GoStr := s.flatMap escChar

theorem seqRepl_single (c : Char) :
    replAllChar '\'' (gs "&#39;") (replAllChar '"' (gs "&quot;")
      (replAllChar '>' (gs "&gt;") (replAllChar '<' (gs "&lt;")
        (replAllChar '&' (gs "&amp;") [c])))) = escChar c := by
  by_cases h1 : c = '&'
  · subst h1; decide
  · by_cases h2 : c = '<'
    · subst h2; decide
    · by_cases h3 : c = '>'
      · subst h3; decide
      · by_cases h4 : c = '"'
        · subst h4; decide
        · by_cases h5 : c = '\''
          · subst h5; decide
          · simp [replAllChar, escChar, h1, h2, h3, h4, h5]

theorem seqRepl_eq (s : GoStr) :
    replAllChar '\'' (gs "&#39;") (replAllChar '"' (gs "&quot;")
      (replAllChar '>' (gs "&gt;") (replAllChar '<' (gs "&lt;")
        (replAllChar '&' (gs "&amp;") s)))) = escapeFive s := by
  induction s with
  | nil => rfl
  | cons c t ih =>
    have happ : ∀ (pat : Char) (rep a b2 : GoStr),
        replAllChar pat rep (a ++ b2) =
          replAllChar pat rep a ++ replAllChar pat rep b2 := by
      intro pat rep a b2
      simp [replAllChar]
    have hsplit : ∀ (pat : Char) (rep : GoStr),
        replAllChar pat rep (c :: t) =
          replAllChar pat rep [c] ++ replAllChar pat rep t := by
      intro pat rep
      simp [replAllChar]
    calc replAllChar '\'' (gs "&#39;") (replAllChar '"' (gs "&quot;")
          (replAllChar '>' (gs "&gt;") (replAllChar '<' (gs "&lt;")
            (replAllChar '&' (gs "&amp;") (c :: t)))))
        = replAllChar '\'' (gs "&#39;") (replAllChar '"' (gs "&quot;")
            (replAllChar '>' (gs "&gt;") (replAllChar '<' (gs "&lt;")
              (replAllChar '&' (gs "&amp;") [c])))) ++
          replAllChar '\'' (gs "&#39;") (replAllChar '"' (gs "&quot;")
            (replAllChar '>' (gs "&gt;") (replAllChar '<' (gs "&lt;")
              (replAllChar '&' (gs "&amp;") t)))) := by
          rw [hsplit, happ, happ, happ, happ]
      _ = escChar c ++ escapeFive t := by rw [seqRepl_single, ih]
      _ = escapeFive (c :: t) := by simp [escapeFive]

/-- `wrapPlainTextAsHTML` is the fixed template around the one-pass
five-character entity escape. -/
theorem wrapPlainTextAsHTML_eq (s : GoStr) :
    wrapPlainTextAsHTML s =
      htmlTemplatePre ++ escapeFive s ++ htmlTemplatePost := by
  show htmlTemplatePre ++ _ ++ htmlTemplatePost = _
  rw [seqRepl_eq]

/-! ## Claims C2 and C7: body selection and plain-text wrapping -/

theorem head?_filterMap_mem {α β : Type} {f : α → Option β} {l : List α} {b : β}
    (h : (l.filterMap f).head? = some b) : ∃ a ∈ l, f a = some b := by
  rcases hl : l.filterMap f with _ | ⟨x, rest⟩
  · rw [hl] at h
    simp at h
  · rw [hl] at h
    simp at h
    subst h
    exact List.mem_filterMap.mp (by rw [hl]; exact List.mem_cons_self x rest)

/-- C2: when the tree holds a `text/html` part with non-empty decodable
inline data (and, as in the claim's scope, also a `text/plain` one),
`extractBody` returns the first such html content in depth-first
preorder, verbatim, with kind `text/html`; the plain content plays no
role in the result. -/
theorem C2_extractBody_prefers_first_html (t : MessagePart) (h : GoStr)
    (hh : firstHtmlContent t = some h)
    (hp : ∃ pl, firstPlainContent t = some pl) :
    extractBody t = (h, gs "text/html") := by
  clear hp
  have hne : h ≠ [] := by
    obtain ⟨p, _, hc⟩ := head?_filterMap_mem hh
    exact htmlCand_ne_nil hc
  unfold extractBody
  rw [recursiveExtractBody_eq]
  have hhtml : (List.foldl extractStep ⟨[], [], [], []⟩ (preorderP t)).htmlContent
      = h := by
    rw [foldl_extractStep_html]
    unfold firstHtmlContent at hh
    simp [hh]
  have hmime : (List.foldl extractStep ⟨[], [], [], []⟩ (preorderP t)).htmlMime
      = gs "text/html" := by
    refine foldl_extractStep_mime _ _ (fun hcon => absurd rfl hcon) ?_
    rw [hhtml]
    exact hne
  rw [if_pos (by rw [hhtml]; exact hne), hhtml, hmime]

/-- Concrete instance for C2: a plain part first, a html part second;
the html part's content `<b>hi</b>` wins verbatim. -/
def partHtmlEx : MessagePart :=
  .mk (gs "text/html") [] (some ⟨[], 0, gs "PGI-aGk8L2I-"⟩) .nil

/-- Concrete plain part (content `hello`). -/
def partPlainEx : MessagePart :=
  .mk (gs "text/plain") [] (some ⟨[], 0, gs "aGVsbG8="⟩) .nil

/-- Concrete two-part tree with the plain part before the html part. -/
def treeBothEx : MessagePart :=
  .mk (gs "multipart/alternative") [] none
    (.cons partPlainEx (.cons partHtmlEx .nil))

theorem C2_extractBody_prefers_first_html_witness :
    extractBody treeBothEx = (gs "<b>hi</b>", gs "text/html") :=
  C2_extractBody_prefers_first_html treeBothEx (gs "<b>hi</b>")
    (by decide) ⟨gs "hello", by decide⟩

/-- C7: when the tree has no html part with non-empty decodable inline
data but does hold a plain one, `extractBody` returns the first plain
content wrapped in the fixed template with the five sensitive bytes
entity-escaped (sequential replacement starting with the ampersand,
proved equal to the one-pass escape `escapeFive`), and reports kind
`text/html`. -/
theorem C7_extractBody_wraps_plain (t : MessagePart) (pl : GoStr)
    (hh : firstHtmlContent t = none)
    (hp : firstPlainContent t = some pl) :
    extractBody t =
      (htmlTemplatePre ++ escapeFive pl ++ htmlTemplatePost, gs "text/html") := by
  have hne : pl ≠ [] := by
    obtain ⟨p, _, hc⟩ := head?_filterMap_mem hp
    exact plainCand_ne_nil hc
  unfold extractBody
  rw [recursiveExtractBody_eq]
  have hhtml : (List.foldl extractStep ⟨[], [], [], []⟩ (preorderP t)).htmlContent
      = [] := by
    rw [foldl_extractStep_html]
    unfold firstHtmlContent at hh
    simp [hh]
  have hplain : (List.foldl extractStep ⟨[], [], [], []⟩ (preorderP t)).plainContent
      = pl := by
    rw [foldl_extractStep_plain]
    unfold firstPlainContent at hp
    simp [hp]
  rw [if_neg (by rw [hhtml]; simp), if_pos (by rw [hplain]; exact hne), hplain,
    wrapPlainTextAsHTML_eq]

/-- Concrete plain-only tree for C7 (content `a&b<c>d"e'f`). -/
def treePlainOnlyEx : MessagePart :=
  .mk (gs "multipart/mixed") [] none
    (.cons (.mk (gs "text/plain") [] (some ⟨[], 0, gs "YSZiPGM-ZCJlJ2Y="⟩) .nil) .nil)

theorem C7_extractBody_wraps_plain_witness :
    extractBody treePlainOnlyEx =
      (htmlTemplatePre ++ escapeFive (gs "a&b<c>d\"e'f") ++ htmlTemplatePost,
        gs "text/html") :=
  C7_extractBody_wraps_plain treePlainOnlyEx (gs "a&b<c>d\"e'f")
    (by decide) (by decide)

/-! ## Errors and the retry classifier (part_006, `isRetryableError`) -/

/-- A Go error value as the client observes it: either a structured
`googleapi.Error` (HTTP code and message) or any other error, carried by
its `Error()` description.  `none` at use sites stands for Go's `nil`. -/
inductive GoError where
  | apiError (code : Int) (message : GoStr)
  | otherError (description : GoStr)
deriving DecidableEq

/-- The `Error()` string of an error: `googleapi.Error` renders as
`googleapi: Error <code>: <message>`; other errors are their own
description. -/
def GoError.description : GoError → GoStr
  | .apiError code msg => gs "googleapi: Error " ++ intStr code ++ gs ": " ++ msg
  | .otherError d => d

/-- Go `isRetryableError`: nil is not retryable; a `googleapi.Error`
is classified by its code alone (429 or any 5xx and above); any other
error by the three substrings of its description. -/
def isRetryableError : Option GoError → Bool
  | none => false
  | some (.apiError code _) => decide (code = 429 ∨ 500 ≤ code)
  | some (.otherError d) =>
      containsSub d (gs "timeout") || containsSub d (gs "deadline exceeded") ||
        containsSub d (gs "connection reset")

/-! ## Attachment extraction (part_006) -/

/-- Ambient configuration of the attachment walk: the
`SKIP_INLINE_IMAGES` environment switch and the remote attachment
endpoint, modelled as a deterministic per-attempt oracle from attachment
id to base64 payload or error. -/
structure GmailEnv where
  skipInlineImages : Bool
  fetchAttachment : GoStr → Except GoError GoStr

/-- First loop of `isAttachment`: scan for a `Content-ID` header; at the
first one, when the part also has a non-empty attachment id and positive
size, return (not skipInlineImages); otherwise keep scanning. -/
def contentIdScan (skipInline : Bool) (b : Option MessagePartBody) :
    List MessagePartHeader → Option Bool
  | [] => none
  | h :: t =>
    if goToLower h.name = gs "content-id" then
      match b with
      | some body =>
        if body.attachmentId ≠ [] ∧ body.size > 0 then some (! skipInline)
        else contentIdScan skipInline b t
      | none => contentIdScan skipInline b t
    else contentIdScan skipInline b t

/-- Second loop of `isAttachment`: any `Content-Disposition` header whose
lower-cased value mentions `attachment` or `filename`. -/
def dispositionHit (hs : List MessagePartHeader) : Bool :=
  hs.any (fun h =>
    decide (goToLower h.name = gs "content-disposition") &&
      (containsSub (goToLower h.value) (gs "attachment") ||
        containsSub (goToLower h.value) (gs "filename")))

/-- Go `isAttachment` (debug prints omitted): Content-ID scan first,
then disposition scan, then the attachment-id/size fallback. -/
def isAttachment (env : GmailEnv) (p : MessagePart) : Bool :=
  match contentIdScan env.skipInlineImages p.body p.headers with
  | some r => r
  | none =>
    if dispositionHit p.headers then true
    else
      match p.body with
      | some b => decide (b.attachmentId ≠ []) && decide (b.size > 0)
      | none => false

/-- Go `getFilenameFromHeaders`: at the first `Content-Disposition`
header whose lower-cased value holds `filename=`, slice the original
value from past the marker, strip surrounding quotes, cut trailing
parameters at `;`, trim spaces; otherwise keep scanning. -/
def getFilenameFromHeaders : List MessagePartHeader → GoStr
  | [] => []
  | h :: t =>
    if goToLower h.name = gs "content-disposition" then
      match indexOfSub (goToLower h.value) (gs "filename=") with
      | some idx =>
        let fn := h.value.drop (idx + 9)
        let fn := trimCharStr '"' fn
        let fn :=
          match indexOfSub fn (gs ";") with
          | some j => fn.take j
          | none => fn
        trimSpaceStr fn
      | none => getFilenameFromHeaders t
    else getFilenameFromHeaders t

/-- Go `processAttachment`: guards (missing body or id, the hardcoded
Webhallen denylist entry, the 10 MiB size ceiling, the 500-char id
ceiling), then download through the oracle (one retry for retryable
errors; the per-attempt response of the deterministic oracle is the
same, so a retried failure stays a failure), then base64 decode.
Returns the printed log lines and the attachment,`none` on any skip.
Sleeps and timeout plumbing are real-time constructs, not modelled. -/
def processAttachment (env : GmailEnv) (messageID : GoStr) (p : MessagePart) :
    List GoStr × Option Attachment :=
  match p.body with
  | none => ([], none)
  | some b =>
    if b.attachmentId = [] then ([], none)
    else if messageID = gs "19855d64da73b5be" ∧
        containsSub b.attachmentId (gs "ANGjdJ") then
      ([gs "WARNING: Skipping known problematic attachment in Webhallen email " ++
        messageID], none)
    else
      let fn0 := getFilenameFromHeaders p.headers
      let fn1 := if fn0 = [] then gs "attachment_" ++ b.attachmentId else fn0
      let idForLog :=
        if b.attachmentId.length > 50 then b.attachmentId.take 50 ++ gs "..."
        else b.attachmentId
      let dbg := gs "DEBUG: Processing attachment " ++ fn1 ++ gs " (ID: " ++
        idForLog ++ gs ", Size: " ++ intStr b.size ++ gs " bytes) for message " ++
        messageID
      if b.size > 10 * 1024 * 1024 then
        ([dbg, gs "WARNING: Skipping large attachment " ++ fn1 ++ gs " (" ++
          intStr b.size ++ gs " bytes) for message " ++ messageID], none)
      else if b.attachmentId.length > 500 then
        ([dbg, gs "WARNING: Skipping attachment with extremely long ID (" ++
          natStr b.attachmentId.length ++ gs " chars) for message " ++ messageID],
          none)
      else
        let dl := gs "DEBUG: Downloading attachment " ++ fn1 ++ gs " for message "
          ++ messageID
        match env.fetchAttachment b.attachmentId with
        | .error e =>
          if isRetryableError (some e) then
            ([dbg, dl, gs "Error downloading attachment " ++ fn1 ++
              gs " after retry"], none)
          else ([dbg, dl, gs "Error downloading attachment " ++ fn1], none)
        | .ok encoded =>
          match b64Decode encoded with
          | none => ([dbg, dl, gs "Error decoding attachment " ++ fn1], none)
          | some bytes =>
            ([dbg, dl], some ⟨fn1, p.mimeType, b.size, bytes, b.attachmentId⟩)

/-- The Go `map[string]interfaces.Attachment` as an association list;
`mapSet` overwrites the binding in place (a deterministic refinement of
Go map semantics; nothing proved below depends on iteration order). -/
abbrev AttachMap := List (GoStr × Attachment)

/-- Insert/overwrite one binding. -/
def mapSet (m : AttachMap) (k : GoStr) (v : Attachment) : AttachMap :=
  match m with
  | [] => [(k, v)]
  | (k2, v2) :: t => if k2 = k then (k, v) :: t else (k2, v2) :: mapSet t k v

/-- Lookup of one binding. -/
def mapLookup (m : AttachMap) (k : GoStr) : Option Attachment :=
  match m with
  | [] => none
  | (k2, v2) :: t => if k2 = k then some v2 else mapLookup t k

/-- The per-node action of `extractAttachmentsRecursive`: classify,
process, and key the result by the part's attachment id. -/
def attachStep (env : GmailEnv) (messageID : GoStr) (m : AttachMap)
    (p : MessagePart) : AttachMap :=
  if isAttachment env p then
    match (processAttachment env messageID p).2 with
    | some a =>
      let attachmentID := match p.body with | some b => b.attachmentId | none => []
      if attachmentID ≠ [] then mapSet m attachmentID a else m
    | none => m
  else m

mutual

/-- Go `extractAttachmentsRecursive`: the node itself, then all
children, threading the deduplication map. -/
def extractAttachmentsRecursive (env : GmailEnv) (messageID : GoStr) :
    MessagePart → AttachMap → AttachMap
  | .mk mt h b ps, m =>
    extractAttachmentsRecursiveL env messageID ps
      (attachStep env messageID m (.mk mt h b ps))

/-- The `for _, part := range payload.Parts` loop of
`extractAttachmentsRecursive`. -/
def extractAttachmentsRecursiveL (env : GmailEnv) (messageID : GoStr) :
    PartList → AttachMap → AttachMap
  | .nil, m => m
  | .cons p ps, m =>
    extractAttachmentsRecursiveL env messageID ps
      (extractAttachmentsRecursive env messageID p m)

end

/-- Go `extractAttachments`: run the walk from an empty map and list the
retained values (debug prints omitted). -/
def extractAttachments (env : GmailEnv) (messageID : GoStr)
    (payload : MessagePart) : List Attachment :=
  (extractAttachmentsRecursive env messageID payload []).map (·.2)

/-! ## Characterizing the attachment walk -/

mutual

/-- The attachment recursion is the fold of its per-node step over the
preorder node list. -/
theorem extractAttachmentsRecursive_eq (env : GmailEnv) (mid : GoStr)
    (p : MessagePart) (m : AttachMap) :
    extractAttachmentsRecursive env mid p m =
      List.foldl (attachStep env mid) m (preorderP p) :=
  match p with
  | .mk mt h b ps => by
    rw [extractAttachmentsRecursive, preorderP, List.foldl_cons]
    exact extractAttachmentsRecursiveL_eq env mid ps _

/-- List version of `extractAttachmentsRecursive_eq`. -/
theorem extractAttachmentsRecursiveL_eq (env : GmailEnv) (mid : GoStr)
    (ps : PartList) (m : AttachMap) :
    extractAttachmentsRecursiveL env mid ps m =
      List.foldl (attachStep env mid) m (preorderL ps) :=
  match ps with
  | .nil => rfl
  | .cons p ps2 => by
    rw [extractAttachmentsRecursiveL, preorderL, List.foldl_append,
      extractAttachmentsRecursive_eq env mid p m,
      extractAttachmentsRecursiveL_eq env mid ps2]

end

/-- A successful `processAttachment` records the part's own attachment
id in the produced Attachment. -/
theorem processAttachment_some_id {env : GmailEnv} {mid : GoStr}
    {p : MessagePart} {a : Attachment}
    (h : (processAttachment env mid p).2 = some a) :
    p.body.elim [] (fun b => b.attachmentId) = a.attachmentId ∧
      p.body.elim [] (fun b => b.attachmentId) ≠ [] := by
  unfold processAttachment at h
  repeat' split at h
  all_goals simp_all
  all_goals rw [← h]

/-- A successful `processAttachment` carries a size at or under the
10 MiB ceiling (the retained size is the part's reported size). -/
theorem processAttachment_some_size {env : GmailEnv} {mid : GoStr}
    {p : MessagePart} {a : Attachment}
    (h : (processAttachment env mid p).2 = some a) :
    a.size ≤ 10 * 1024 * 1024 := by
  unfold processAttachment at h
  repeat' split at h
  all_goals simp_all
  all_goals rw [← h]
  all_goals simp
  all_goals omega

/-- The successful insertions the walk performs, in visit order: for
each processed node, the key (the part's attachment id) and the retained
Attachment. -/
def attachIns (env : GmailEnv) (mid : GoStr) (l : List MessagePart) :
    List (GoStr × Attachment) :=
  l.filterMap (fun p =>
    if isAttachment env p then
      match (processAttachment env mid p).2 with
      | some a =>
        let attachmentID := match p.body with | some b => b.attachmentId | none => []
        if attachmentID ≠ [] then some (attachmentID, a) else none
      | none => none
    else none)

/-- Folding the walk's step is folding plain keyed insertion over the
successful insertions. -/
theorem foldl_attachStep_eq (env : GmailEnv) (mid : GoStr)
    (l : List MessagePart) :
    ∀ m : AttachMap,
      List.foldl (attachStep env mid) m l =
        List.foldl (fun m2 kv => mapSet m2 kv.1 kv.2) m (attachIns env mid l) := by
  induction l with
  | nil => intro m; rfl
  | cons p t ih =>
    intro m
    have hstep : attachStep env mid m p =
        List.foldl (fun m2 kv => mapSet m2 kv.1 kv.2) m (attachIns env mid [p]) := by
      unfold attachStep attachIns
      rcases hcls : isAttachment env p
      · simp [hcls]
      · rcases hpr : (processAttachment env mid p).2 with _ | a
        · simp [hcls, hpr]
        · by_cases hk : (match p.body with | some b => b.attachmentId | none => []) = []
          · simp only [List.filterMap_cons, hcls, if_true, hpr, hk]
            simp
          · simp only [List.filterMap_cons, hcls, if_true, hpr]
            simp [hk]
    have hins : attachIns env mid (p :: t) =
        attachIns env mid [p] ++ attachIns env mid t := by
      unfold attachIns
      rw [show p :: t = [p] ++ t from rfl, List.filterMap_append]
    rw [List.foldl_cons, hstep, hins, List.foldl_append, ih]

instance : Inhabited Attachment := ⟨⟨[], [], 0, [], []⟩⟩

theorem mapLookup_mapSet (m : AttachMap) (k : GoStr) (v : Attachment)
    (k2 : GoStr) :
    mapLookup (mapSet m k v) k2 = if k = k2 then some v else mapLookup m k2 := by
  induction m with
  | nil =>
    by_cases h : k = k2 <;> simp [mapSet, mapLookup, h]
  | cons kv t ih =>
    obtain ⟨k3, v3⟩ := kv
    by_cases h3 : k3 = k
    · subst h3
      by_cases h : k3 = k2 <;> simp [mapSet, mapLookup, h]
    · by_cases h : k3 = k2
      · subst h
        have : ¬ k = k3 := fun he => h3 he.symm
        simp [mapSet, mapLookup, h3, this]
      · simp [mapSet, mapLookup, h3, h, ih]

theorem mapLookup_foldl_ins (l : List (GoStr × Attachment)) :
    ∀ (m : AttachMap) (k : GoStr),
      mapLookup (List.foldl (fun m2 kv => mapSet m2 kv.1 kv.2) m l) k =
        l.foldl (fun acc kv => if kv.1 = k then some kv.2 else acc)
          (mapLookup m k) := by
  induction l with
  | nil => intro m k; rfl
  | cons kv t ih =>
    intro m k
    rw [List.foldl_cons, List.foldl_cons, ih, mapLookup_mapSet]

/-- Keys of the association map. -/
def mapKeys (m : AttachMap) : List GoStr := m.map (·.1)

theorem mapKeys_mapSet (m : AttachMap) (k : GoStr) (v : Attachment) :
    mapKeys (mapSet m k v) = mapKeys m ∨
      mapKeys (mapSet m k v) = mapKeys m ++ [k] := by
  induction m with
  | nil => right; rfl
  | cons kv t ih =>
    obtain ⟨k2, v2⟩ := kv
    by_cases h : k2 = k
    · left
      subst h
      simp [mapSet, mapKeys]
    · rcases ih with ih | ih
      · left
        simp [mapSet, mapKeys, h]
        simpa [mapKeys] using ih
      · right
        simp [mapSet, mapKeys, h]
        simpa [mapKeys] using ih

theorem mapSet_mem (m : AttachMap) (k : GoStr) (v : Attachment) (kv : GoStr × Attachment)
    (h : kv ∈ mapSet m k v) : kv ∈ m ∨ kv = (k, v) := by
  induction m with
  | nil =>
    right
    simpa [mapSet] using h
  | cons kv2 t ih =>
    obtain ⟨k2, v2⟩ := kv2
    by_cases h2 : k2 = k
    · subst h2
      simp [mapSet] at h
      rcases h with h | h
      · right; simpa using h
      · left; simp [h]
    · simp [mapSet, h2] at h
      rcases h with h | h
      · left; simp [h]
      · rcases ih h with h3 | h3
        · left; simp [h3]
        · right; exact h3

/-- The two fold invariants of the deduplication map: keys are unique
and every retained Attachment records its own key. -/
def mapInv (m : AttachMap) : Prop :=
  (mapKeys m).Nodup ∧ ∀ kv ∈ m, (kv.2).attachmentId = kv.1

theorem mapKeys_cons (a : GoStr) (b : Attachment) (l : AttachMap) :
    mapKeys ((a, b) :: l) = a :: mapKeys l := rfl

theorem mapKeys_nodup_mapSet (m : AttachMap) (k : GoStr) (v : Attachment)
    (h1 : (mapKeys m).Nodup) : (mapKeys (mapSet m k v)).Nodup := by
  induction m with
  | nil => simp [mapSet, mapKeys]
  | cons kv t ih =>
    obtain ⟨k2, v2⟩ := kv
    rw [mapKeys_cons, List.nodup_cons] at h1
    by_cases hk : k2 = k
    · subst hk
      rw [show mapSet ((k2, v2) :: t) k2 v = (k2, v) :: t from by simp [mapSet]]
      rw [mapKeys_cons, List.nodup_cons]
      exact h1
    · rw [show mapSet ((k2, v2) :: t) k v = (k2, v2) :: mapSet t k v from by
        simp [mapSet, hk]]
      rw [mapKeys_cons, List.nodup_cons]
      refine ⟨?_, ih h1.2⟩
      intro hmem
      rcases mapKeys_mapSet t k v with he | he
      · rw [he] at hmem
        exact h1.1 hmem
      · rw [he] at hmem
        rcases List.mem_append.mp hmem with hmem | hmem
        · exact h1.1 hmem
        · exact hk (by simpa using hmem)

theorem mapInv_mapSet (m : AttachMap) (k : GoStr) (v : Attachment)
    (hm : mapInv m) (hv : v.attachmentId = k) : mapInv (mapSet m k v) := by
  obtain ⟨h1, h2⟩ := hm
  refine ⟨mapKeys_nodup_mapSet m k v h1, ?_⟩
  intro kv hkv
  rcases mapSet_mem m k v kv hkv with h | h
  · exact h2 kv h
  · rw [h]
    exact hv

theorem mapInv_values_filter (m : AttachMap) (k : GoStr) (hm : mapInv m) :
    (m.map (·.2)).filter (fun a => decide (a.attachmentId = k)) =
      (mapLookup m k).toList := by
  obtain ⟨h1, h2⟩ := hm
  induction m with
  | nil => rfl
  | cons kv t ih =>
    obtain ⟨k2, v2⟩ := kv
    have hv2 : v2.attachmentId = k2 := h2 (k2, v2) (List.mem_cons_self _ _)
    simp only [mapKeys, List.map_cons, List.nodup_cons] at h1
    by_cases hk : k2 = k
    · subst hk
      have hnil : (t.map (·.2)).filter (fun a => decide (a.attachmentId = k2)) = [] := by
        rw [List.filter_eq_nil]
        intro a ha
        obtain ⟨kv2, hkv2, hkv2e⟩ := List.mem_map.mp ha
        have := h2 kv2 (List.mem_cons_of_mem _ hkv2)
        rw [hkv2e] at this
        intro hcon
        rw [this] at hcon
        exact h1.1 (by
          simp only [decide_eq_true_eq] at hcon
          rw [← hcon]
          exact List.mem_map.mpr ⟨kv2, hkv2, rfl⟩)
      simp [mapLookup, hv2, hnil]
    · have hne : ¬ v2.attachmentId = k := by rw [hv2]; exact hk
      simp only [List.map_cons, List.filter_cons, hne, decide_eq_true_eq,
        if_neg hne]
      rw [ih h1.2 (fun kv hkv => h2 kv (List.mem_cons_of_mem _ hkv))]
      simp [mapLookup, hk]

theorem mapInv_foldl (l : List (GoStr × Attachment)) :
    ∀ m, mapInv m → (∀ kv ∈ l, (kv.2).attachmentId = kv.1) →
      mapInv (List.foldl (fun m2 kv => mapSet m2 kv.1 kv.2) m l) := by
  induction l with
  | nil => intro m hm _; exact hm
  | cons kv t ih =>
    intro m hm hl
    rw [List.foldl_cons]
    exact ih _ (mapInv_mapSet m kv.1 kv.2 hm (hl kv (List.mem_cons_self _ _)))
      (fun kv2 h => hl kv2 (List.mem_cons_of_mem _ h))

theorem attachIns_key (env : GmailEnv) (mid : GoStr) (l : List MessagePart) :
    ∀ kv ∈ attachIns env mid l, (kv.2).attachmentId = kv.1 := by
  intro kv hkv
  obtain ⟨p, hp, hf⟩ := List.mem_filterMap.mp hkv
  by_cases hcls : isAttachment env p
  · simp only [hcls, if_true] at hf
    rcases hpr : (processAttachment env mid p).2 with _ | a
    · rw [hpr] at hf
      simp at hf
    · rw [hpr] at hf
      have hid := (processAttachment_some_id hpr).1
      rcases hb : p.body with _ | b
      · rw [hb] at hf
        simp at hf
      · rw [hb] at hf
        rw [hb] at hid
        simp only [Option.elim] at hid
        by_cases hne : b.attachmentId = []
        · simp [hne] at hf
        · simp only [hne, ne_eq, not_false_eq_true, if_true] at hf
          obtain rfl : (b.attachmentId, a) = kv := Option.some.inj hf
          simpa using hid.symm
  · simp [hcls] at hf

/-- The last successful insertion for a given key, in visit order: what
"last processed wins" prescribes. -/
def lastInsertedFor (env : GmailEnv) (mid : GoStr) (t : MessagePart)
    (k : GoStr) : Option Attachment :=
  (attachIns env mid (preorderP t)).foldl
    (fun acc kv => if kv.1 = k then some kv.2 else acc) none

/-- C3: in the sequence `extractAttachments` produces, every distinct
remote attachment id appears at most once, even when several tree nodes
(or repeated visits) carry that id; the Attachment retained for an id is
the last successfully processed one in visit order. -/
theorem C3_extractAttachments_dedup (env : GmailEnv) (mid : GoStr)
    (t : MessagePart) (k : GoStr) :
    ((extractAttachments env mid t).filter
        (fun a => decide (a.attachmentId = k))).length ≤ 1 ∧
      (extractAttachments env mid t).filter (fun a => decide (a.attachmentId = k)) =
        (lastInsertedFor env mid t k).toList := by
  have hinv : mapInv (extractAttachmentsRecursive env mid t []) := by
    rw [extractAttachmentsRecursive_eq, foldl_attachStep_eq]
    exact mapInv_foldl _ _ ⟨List.nodup_nil, by simp⟩ (attachIns_key env mid _)
  have hfil := mapInv_values_filter _ k hinv
  have hlook : mapLookup (extractAttachmentsRecursive env mid t []) k =
      lastInsertedFor env mid t k := by
    rw [extractAttachmentsRecursive_eq, foldl_attachStep_eq, mapLookup_foldl_ins]
    rfl
  have main : (extractAttachments env mid t).filter
      (fun a => decide (a.attachmentId = k)) = (lastInsertedFor env mid t k).toList := by
    unfold extractAttachments
    rw [hfil, hlook]
  refine ⟨?_, main⟩
  rw [main]
  rcases lastInsertedFor env mid t k with _ | a <;> simp

theorem exists_warning_first {w : GoStr} (h : gs "WARNING" <+: w) :
    ∃ v ∈ [w], gs "WARNING" <+: v := ⟨w, by simp, h⟩

theorem exists_warning_second {x w : GoStr} (h : gs "WARNING" <+: w) :
    ∃ v ∈ [x, w], gs "WARNING" <+: v := ⟨w, by simp, h⟩

theorem processAttachment_big_skip {env : GmailEnv} {mid : GoStr}
    {p : MessagePart} {b : MessagePartBody} (hb : p.body = some b)
    (hid : b.attachmentId ≠ []) (hbig : b.size > 10 * 1024 * 1024) :
    (processAttachment env mid p).2 = none ∧
      ∃ w ∈ (processAttachment env mid p).1, gs "WARNING" <+: w := by
  unfold processAttachment
  rw [hb]
  simp only [hid, ne_eq, if_neg (by simpa using hid)]
  by_cases hwh : mid = gs "19855d64da73b5be" ∧ containsSub b.attachmentId (gs "ANGjdJ")
  · rw [if_pos hwh]
    refine ⟨rfl, ?_⟩
    refine exists_warning_first ?_
    exact (show gs "WARNING" <+:
      gs "WARNING: Skipping known problematic attachment in Webhallen email "
      by decide).trans (List.prefix_append _ _)
  · rw [if_neg hwh, if_pos hbig]
    refine ⟨rfl, ?_⟩
    refine exists_warning_second ?_
    exact (show gs "WARNING" <+: gs "WARNING: Skipping large attachment "
      by decide).trans (List.prefix_append _ _)

theorem attachIns_size (env : GmailEnv) (mid : GoStr) (l : List MessagePart) :
    ∀ kv ∈ attachIns env mid l, (kv.2).size ≤ 10 * 1024 * 1024 := by
  intro kv hkv
  obtain ⟨p, hp, hf⟩ := List.mem_filterMap.mp hkv
  by_cases hcls : isAttachment env p
  · simp only [hcls, if_true] at hf
    rcases hpr : (processAttachment env mid p).2 with _ | a
    · rw [hpr] at hf
      simp at hf
    · rw [hpr] at hf
      have hsz := processAttachment_some_size hpr
      rcases hb : p.body with _ | b
      · rw [hb] at hf
        simp at hf
      · rw [hb] at hf
        by_cases hne : b.attachmentId = []
        · simp [hne] at hf
        · simp only [hne, ne_eq, not_false_eq_true, if_true] at hf
          obtain rfl : (b.attachmentId, a) = kv := Option.some.inj hf
          exact hsz
  · simp [hcls] at hf

theorem foldl_ins_mem (l : List (GoStr × Attachment)) :
    ∀ (m : AttachMap) (kv : GoStr × Attachment),
      kv ∈ List.foldl (fun m2 kv2 => mapSet m2 kv2.1 kv2.2) m l →
        kv ∈ m ∨ kv ∈ l := by
  induction l with
  | nil => intro m kv h; exact Or.inl h
  | cons kv0 t ih =>
    intro m kv h
    rw [List.foldl_cons] at h
    rcases ih _ kv h with h2 | h2
    · rcases mapSet_mem m kv0.1 kv0.2 kv h2 with h3 | h3
      · exact Or.inl h3
      · right
        rw [h3]
        exact List.mem_cons_self _ _
    · right
      exact List.mem_cons_of_mem _ h2

theorem processAttachment_ok_some {env : GmailEnv} {mid : GoStr}
    {p : MessagePart} {b : MessagePartBody} {enc bytes : GoStr}
    (hb : p.body = some b) (hid : b.attachmentId ≠ [])
    (hwh : ¬ (mid = gs "19855d64da73b5be" ∧
      containsSub b.attachmentId (gs "ANGjdJ")))
    (hsz : b.size ≤ 10 * 1024 * 1024) (hlen : b.attachmentId.length ≤ 500)
    (hfetch : env.fetchAttachment b.attachmentId = .ok enc)
    (hdec : b64Decode enc = some bytes) :
    (processAttachment env mid p).2.isSome := by
  unfold processAttachment
  rw [hb]
  simp only [hid, ne_eq, if_neg (by simpa using hid), if_neg hwh,
    if_neg (by omega : ¬ b.size > 10 * 1024 * 1024),
    if_neg (by omega : ¬ b.attachmentId.length > 500), hfetch, hdec]
  simp

/-- C6: the 10 MiB ceiling.  (i) A candidate node whose reported size
exceeds `10*1024*1024` bytes yields no Attachment and a logged warning;
(ii) consequently no Attachment of size above the ceiling ever appears
in `extractAttachments` output; (iii) a candidate at or under the
ceiling is not excluded by the size filter: with every other guard
passing and the download decodable it is retained. -/
theorem C6_size_ceiling :
    (∀ (env : GmailEnv) (mid : GoStr) (p : MessagePart) (b : MessagePartBody),
      p.body = some b → b.attachmentId ≠ [] → b.size > 10 * 1024 * 1024 →
        (processAttachment env mid p).2 = none ∧
          ∃ w ∈ (processAttachment env mid p).1, gs "WARNING" <+: w) ∧
    (∀ (env : GmailEnv) (mid : GoStr) (t : MessagePart) (a : Attachment),
      a ∈ extractAttachments env mid t → a.size ≤ 10 * 1024 * 1024) ∧
    (∀ (env : GmailEnv) (mid : GoStr) (p : MessagePart) (b : MessagePartBody)
      (enc bytes : GoStr),
      p.body = some b → b.attachmentId ≠ [] →
      ¬ (mid = gs "19855d64da73b5be" ∧
        containsSub b.attachmentId (gs "ANGjdJ")) →
      b.size ≤ 10 * 1024 * 1024 → b.attachmentId.length ≤ 500 →
      env.fetchAttachment b.attachmentId = .ok enc →
      b64Decode enc = some bytes →
        (processAttachment env mid p).2.isSome) := by
  refine ⟨fun env mid p b hb hid hbig => processAttachment_big_skip hb hid hbig,
    ?_, fun env mid p b enc bytes hb hid hwh hsz hlen hf hd =>
      processAttachment_ok_some hb hid hwh hsz hlen hf hd⟩
  intro env mid t a ha
  unfold extractAttachments at ha
  obtain ⟨kv, hkv, hkve⟩ := List.mem_map.mp ha
  rw [extractAttachmentsRecursive_eq, foldl_attachStep_eq] at hkv
  rcases foldl_ins_mem _ _ _ hkv with h | h
  · simp at h
  · rw [← hkve]
    exact attachIns_size env mid _ kv h

/-! ## Claim C5: the retry classifier -/

/-- A description carries a retry indication: one of the three
transport-level substrings. -/
def descIndicates (d : GoStr) : Prop :=
  containsSub d (gs "timeout") = true ∨
    containsSub d (gs "deadline exceeded") = true ∨
    containsSub d (gs "connection reset") = true

instance (d : GoStr) : Decidable (descIndicates d) :=
  inferInstanceAs (Decidable (containsSub d (gs "timeout") = true ∨
    containsSub d (gs "deadline exceeded") = true ∨
    containsSub d (gs "connection reset") = true))

/-- The claim's reading of the policy, verbatim: retryable iff the error
is an API error with code 429 or ≥ 500, or the error's description
contains one of the three indications (nil retryable for neither). -/
def claimC5 (e : Option GoError) : Prop :=
  match e with
  | none => False
  | some err =>
    (match err with
      | .apiError code _ => code = 429 ∨ 500 ≤ code
      | .otherError _ => False) ∨ descIndicates err.description

instance (e : Option GoError) : Decidable (claimC5 e) :=
  match e with
  | none => isFalse id
  | some (.apiError c m) =>
    inferInstanceAs (Decidable ((c = 429 ∨ 500 ≤ c) ∨
      descIndicates (GoError.description (.apiError c m))))
  | some (.otherError d) =>
    inferInstanceAs (Decidable (False ∨
      descIndicates (GoError.description (.otherError d))))

/-- C5 counterexample: a `googleapi.Error` with code 404 whose message —
hence description — contains `deadline exceeded`.  The claim's iff makes
it retryable through the description disjunct, but the code returns
early on the API-error type check and classifies it by code alone:
`isRetryableError` is false here. -/
theorem C5_counterexample :
    ¬ (isRetryableError (some (.apiError 404 (gs "deadline exceeded"))) = true ↔
      claimC5 (some (.apiError 404 (gs "deadline exceeded")))) := by
  decide

/-- C5 amended: `isRetryableError` returns true iff the error is a
Google API error with code 429 or ≥ 500, or is a non-API error whose
description contains a timeout / deadline-exceeded / connection-reset
indication; nil and every other error (API errors of other codes
included, whatever their description) give false. -/
theorem C5_isRetryableError_amended (e : Option GoError) :
    isRetryableError e = true ↔
      ((∃ code msg, e = some (.apiError code msg) ∧ (code = 429 ∨ 500 ≤ code)) ∨
        (∃ d, e = some (.otherError d) ∧ descIndicates d)) := by
  rcases e with _ | err
  · simp [isRetryableError]
  · rcases err with ⟨code, msg⟩ | d
    · simp [isRetryableError, descIndicates]
    · simp [isRetryableError, descIndicates, GoError.description]
      tauto

/-! ## Folder/name planning (part_005) -/

/-- RE2 `\w` (ASCII word byte). -/
def isWordChar (c : Char) : Bool :=
  ('0' ≤ c ∧ c ≤ '9') ∨ ('A' ≤ c ∧ c ≤ 'Z') ∨ ('a' ≤ c ∧ c ≤ 'z') ∨ c = '_'

/-- RE2 `\s` (`[\t\n\f\r ]`). -/
def isRe2Space (c : Char) : Bool :=
  c = ' ' ∨ c = '\t' ∨ c = '\n' ∨ c = '\x0c' ∨ c = '\x0d'

/-- Replace every maximal run of bytes satisfying `p` by the single byte
`rep` — the effect of `regexp.ReplaceAllString` with pattern `X+`.  The
Boolean flag tracks being inside a run. -/
def collapseRunsAux (p : Char → Bool) (rep : Char) : Bool → GoStr → GoStr
  | _, [] => []
  | inRun, c :: t =>
    if p c then
      if inRun then collapseRunsAux p rep true t
      else rep :: collapseRunsAux p rep true t
    else c :: collapseRunsAux p rep false t

/-- Entry point of `collapseRunsAux`. -/
def collapseRuns (p : Char → Bool) (rep : Char) (s : GoStr) : GoStr :=
  collapseRunsAux p rep false s

/-- Go `sanitizeForFilename` (final version, which keeps `.`): drop
bytes outside `[\w\s.-]` (any non-ASCII rune is outside it), collapse
whitespace runs to `-`, collapse `-` runs, trim `-` at both ends. -/
def sanitizeForFilename (s : GoStr) : GoStr :=
  let cleaned := s.filter
    (fun c => isWordChar c || isRe2Space c || decide (c = '.') || decide (c = '-'))
  let cleaned := collapseRuns isRe2Space '-' cleaned
  let cleaned := collapseRuns (fun c => decide (c = '-')) '-' cleaned
  trimCharStr '-' cleaned

/-- Parsed wall-clock fields of an email date.  `Format
"2006-01-02_15-04-05"` prints exactly these fields as parsed (the zone
offset never shows in that layout), so the zone is not carried. -/
structure DateTime where
  year : Nat
  month : Nat
  day : Nat
  hour : Nat
  minute : Nat
  second : Nat
deriving DecidableEq

/-- Value of a decimal digit byte. -/
def digitVal (c : Char) : Option Nat :=
  if '0' ≤ c ∧ c ≤ '9' then some (c.toNat - 48) else none

/-- Go `getnum` (layout `"2"`, not zero-padded): one digit, or two when
the next byte is also a digit. -/
def parse2Flex : GoStr → Option (Nat × GoStr)
  | [] => none
  | c :: t =>
    match digitVal c with
    | none => none
    | some d1 =>
      match t with
      | c2 :: t2 =>
        match digitVal c2 with
        | some d2 => some (d1 * 10 + d2, t2)
        | none => some (d1, t)
      | [] => some (d1, [])

/-- Go `getnum` (layout `"02"`, zero-padded): exactly two digits. -/
def parse2Fixed : GoStr → Option (Nat × GoStr)
  | c1 :: c2 :: t =>
    match digitVal c1, digitVal c2 with
    | some d1, some d2 => some (d1 * 10 + d2, t)
    | _, _ => none
  | _ => none

/-- Layout `"2006"`: exactly four digits. -/
def parse4Digits : GoStr → Option (Nat × GoStr)
  | c1 :: c2 :: c3 :: c4 :: t =>
    match digitVal c1, digitVal c2, digitVal c3, digitVal c4 with
    | some d1, some d2, some d3, some d4 =>
      some (((d1 * 10 + d2) * 10 + d3) * 10 + d4, t)
    | _, _, _, _ => none
  | _ => none

/-- Expect one literal byte. -/
def expectChar (c : Char) : GoStr → Option GoStr
  | c2 :: t => if c2 = c then some t else none
  | [] => none

/-- Short day names; Go's layout lookup is case-insensitive. -/
def dayNames : List GoStr :=
  [gs "mon", gs "tue", gs "wed", gs "thu", gs "fri", gs "sat", gs "sun"]

/-- Layout `"Mon"`. -/
def parseDayName (s : GoStr) : Option GoStr :=
  if dayNames.any (fun d => decide (d = goToLower (s.take 3))) then
    some (s.drop 3)
  else none

/-- Short month names with their month numbers. -/
def monthTable : List (GoStr × Nat) :=
  [(gs "jan", 1), (gs "feb", 2), (gs "mar", 3), (gs "apr", 4), (gs "may", 5),
   (gs "jun", 6), (gs "jul", 7), (gs "aug", 8), (gs "sep", 9), (gs "oct", 10),
   (gs "nov", 11), (gs "dec", 12)]

/-- Layout `"Jan"` (case-insensitive). -/
def parseMonthName (s : GoStr) : Option (Nat × GoStr) :=
  (monthTable.find? (fun mi => decide (mi.1 = goToLower (s.take 3)))).map
    (fun mi => (mi.2, s.drop 3))

/-- Layout `"-0700"`: a sign and four digits. -/
def parseNumZone : GoStr → Option GoStr
  | c :: a :: b2 :: c2 :: d2 :: r =>
    if (c = '+' ∨ c = '-') ∧ (digitVal a).isSome ∧ (digitVal b2).isSome ∧
        (digitVal c2).isSome ∧ (digitVal d2).isSome then some r
    else none
  | _ => none

/-- Upper-case ASCII letter. -/
def isUpperChar (c : Char) : Bool := 'A' ≤ c ∧ c ≤ 'Z'

/-- Layout `"MST"`: a three-to-five-letter upper-case zone abbreviation
(the common shapes Go's `parseTimeZone` accepts). -/
def parseNamedZone (s : GoStr) : Option GoStr :=
  let ab := s.takeWhile isUpperChar
  if 3 ≤ ab.length ∧ ab.length ≤ 5 then some (s.drop ab.length) else none

/-- Gregorian leap year. -/
def isLeapYear (y : Nat) : Bool :=
  y % 4 = 0 ∧ (y % 100 ≠ 0 ∨ y % 400 = 0)

/-- Days in a month. -/
def daysInMonth (y mo : Nat) : Nat :=
  if mo = 2 then (if isLeapYear y then 29 else 28)
  else if mo = 4 ∨ mo = 6 ∨ mo = 9 ∨ mo = 11 then 30
  else 31

/-- The range validation Go's `time.Parse` applies before building the
time value. -/
def mkValidDateTime (y mo d h mi s : Nat) : Option DateTime :=
  if 1 ≤ mo ∧ mo ≤ 12 ∧ 1 ≤ d ∧ d ≤ daysInMonth y mo ∧ h ≤ 23 ∧ mi ≤ 59 ∧
      s ≤ 59 then
    some ⟨y, mo, d, h, mi, s⟩
  else none

/-- Layout `"15:04:05"`: flexible hour, zero-padded minute and second. -/
def parseClock (s : GoStr) : Option (Nat × Nat × Nat × GoStr) :=
  (parse2Flex s).bind fun hr =>
    (expectChar ':' hr.2).bind fun r2 =>
      (parse2Fixed r2).bind fun mr =>
        (expectChar ':' mr.2).bind fun r4 =>
          (parse2Fixed r4).map fun sr => (hr.1, mr.1, sr.1, sr.2)

/-- The common shape of the first seven layouts of `parseEmailDate`:
optional leading day name with `", "`, day digits (flexible or
zero-padded), month name, four-digit year, clock, zone (numeric or
named); the whole input must be consumed, and the fields must pass Go's
range validation. -/
def parseCore (withDayName dayFixed numericZone : Bool) (s : GoStr) :
    Option DateTime :=
  (if withDayName then
      (parseDayName s).bind fun r => (expectChar ',' r).bind (expectChar ' ')
    else some s).bind fun r1 =>
  (if dayFixed then parse2Fixed r1 else parse2Flex r1).bind fun dr =>
  (expectChar ' ' dr.2).bind fun r3 =>
  (parseMonthName r3).bind fun mor =>
  (expectChar ' ' mor.2).bind fun r5 =>
  (parse4Digits r5).bind fun yr =>
  (expectChar ' ' yr.2).bind fun r7 =>
  (parseClock r7).bind fun clk =>
  (expectChar ' ' clk.2.2.2).bind fun r9 =>
  ((if numericZone then parseNumZone r9 else parseNamedZone r9)).bind fun r10 =>
  if r10 = [] then mkValidDateTime yr.1 mor.1 dr.1 clk.1 clk.2.1 clk.2.2.1
  else none

/-- Zone of layout RFC3339: `Z` or `±hh:mm`. -/
def parseRFC3339Zone : GoStr → Option GoStr
  | 'Z' :: t => some t
  | c :: t =>
    if c = '+' ∨ c = '-' then
      (parse2Fixed t).bind fun hr =>
        (expectChar ':' hr.2).bind fun r2 =>
          (parse2Fixed r2).map (fun x => x.2)
    else none
  | [] => none

/-- Layout `time.RFC3339`. -/
def parseRFC3339 (s : GoStr) : Option DateTime :=
  (parse4Digits s).bind fun yr =>
  (expectChar '-' yr.2).bind fun r2 =>
  (parse2Fixed r2).bind fun mor =>
  (expectChar '-' mor.2).bind fun r4 =>
  (parse2Fixed r4).bind fun dr =>
  (expectChar 'T' dr.2).bind fun r6 =>
  (parseClock r6).bind fun clk =>
  (parseRFC3339Zone clk.2.2.2).bind fun r8 =>
  if r8 = [] then mkValidDateTime yr.1 mor.1 dr.1 clk.1 clk.2.1 clk.2.2.1
  else none

/-- Whether the tail of the string starting here matches the regex
`\s*\([^)]+\)\s*$`. -/
def tzSuffixAt (l : GoStr) : Bool :=
  match l.dropWhile isRe2Space with
  | '(' :: rest =>
    let mid := rest.takeWhile (fun c => decide (c ≠ ')'))
    decide (mid ≠ []) &&
      (match rest.drop mid.length with
        | ')' :: tail => tail.all isRe2Space
        | _ => false)
  | _ => false

/-- `regexp.MustCompile("\\s*\\([^)]+\\)\\s*$").ReplaceAllString(s, "")`:
remove the leftmost trailing parenthesized suffix, if any. -/
def stripParenSuffix (s : GoStr) : GoStr :=
  match (List.range (s.length + 1)).find? (fun i => tzSuffixAt (s.drop i)) with
  | some i => s.take i
  | none => s

/-- Go `parseEmailDate`, up to its `time.Now()` fallback (the caller
supplies `now`): strip the parenthesized timezone suffix, then try the
eight layouts in source order (the sixth, `time.RFC1123Z`, repeats the
second). -/
def parseEmailDate (dateStr : GoStr) : Option DateTime :=
  let clean := stripParenSuffix dateStr
  (parseCore true false true clean).orElse fun _ =>
  (parseCore true true true clean).orElse fun _ =>
  (parseCore false false true clean).orElse fun _ =>
  (parseCore false true true clean).orElse fun _ =>
  (parseCore true false false clean).orElse fun _ =>
  (parseCore true true true clean).orElse fun _ =>
  (parseCore true true false clean).orElse fun _ =>
  parseRFC3339 clean

/-- Two-digit zero-padded field, as Go `%02d` for values below 100 (all
validated fields are). -/
def pad2 (n : Nat) : GoStr := [digitChar (n / 10), digitChar n]

/-- Four-digit zero-padded year; the layouts parse exactly four year
digits, so the year is below 10000 here. -/
def pad4 (n : Nat) : GoStr :=
  [digitChar (n / 1000), digitChar (n / 100), digitChar (n / 10), digitChar n]

/-- `date.Format("2006-01-02_15-04-05")`. -/
def formatDatePrefix (dt : DateTime) : GoStr :=
  pad4 dt.year ++ gs "-" ++ pad2 dt.month ++ gs "-" ++ pad2 dt.day ++ gs "_" ++
    pad2 dt.hour ++ gs "-" ++ pad2 dt.minute ++ gs "-" ++ pad2 dt.second

theorem formatDatePrefix_length (dt : DateTime) :
    (formatDatePrefix dt).length = 19 := by
  simp [formatDatePrefix, pad4, pad2, gs]

/-- Go `generateFilePrefix` (part_005 final version): `now` stands for
`time.Now()`, consulted only when no layout parses the date header. -/
def generateFilePrefix (now : DateTime) (email : EmailMessage) : GoStr :=
  let date := (parseEmailDate email.date).getD now
  let dateStr := formatDatePrefix date
  let subject0 := sanitizeForFilename email.subject
  let subject1 := if subject0 = [] then gs "no-subject" else subject0
  let maxSubjectLen : Int := 200 - (dateStr.length : Int) - 1
  let subject2 :=
    if (subject1.length : Int) > maxSubjectLen then
      subject1.take maxSubjectLen.toNat
    else subject1
  dateStr ++ gs "_" ++ subject2

/-- C4: name planning.  (i) Whenever the date header parses by one of
the known layouts, `generateFilePrefix` is independent of the wall
clock, hence a pure deterministic function of the (date, subject) pair;
(ii) for every subject — of any length — the produced prefix never
exceeds 200 bytes. -/
theorem C4_generateFilePrefix_deterministic_bounded (email : EmailMessage) :
    ((∃ d, parseEmailDate email.date = some d) →
      ∀ now1 now2 : DateTime,
        generateFilePrefix now1 email = generateFilePrefix now2 email) ∧
    (∀ (now : DateTime) (subj : GoStr),
      (generateFilePrefix now { email with subject := subj }).length ≤ 200) := by
  constructor
  · rintro ⟨d, hp⟩ now1 now2
    unfold generateFilePrefix
    rw [hp]
    rfl
  · intro now subj
    unfold generateFilePrefix
    dsimp only
    generalize hds : formatDatePrefix
      ((parseEmailDate ({ email with subject := subj }).date).getD now) = ds
    have h19 : ds.length = 19 := by
      rw [← hds]
      exact formatDatePrefix_length _
    rw [h19]
    have h180 : ((200 : Int) - ((19 : Nat) : Int) - 1) = (180 : Int) := by norm_num
    rw [h180]
    set s1 := if sanitizeForFilename ({ email with subject := subj }).subject = []
      then gs "no-subject"
      else sanitizeForFilename ({ email with subject := subj }).subject with hs1
    have hu : (gs "_").length = 1 := rfl
    by_cases hl : (s1.length : Int) > 180
    · rw [if_pos hl]
      have ht : (s1.take (Int.toNat 180)).length ≤ 180 := by
        rw [List.length_take]
        have : Int.toNat 180 = 180 := rfl
        omega
      simp only [List.length_append, hu, h19]
      omega
    · rw [if_neg hl]
      have ht : s1.length ≤ 180 := by
        simp at hl
        exact_mod_cast hl
      simp only [List.length_append, hu, h19]
      omega

/-! ## Output materialization (part_005, `WriteEmail`)

The filesystem is modelled as the set of file paths (with contents) and
directory paths; `os.WriteFile` always succeeds (write errors are disk
faults outside the properties below), `os.MkdirAll` always succeeds,
`os.Chtimes` changes no path. -/

/-- Model filesystem: files (path, content) and directories. -/
structure FileSys where
  files : List (GoStr × GoStr)
  dirs : List GoStr
deriving DecidableEq

/-- The file paths present. -/
def fileNames (fs : FileSys) : List GoStr := fs.files.map (·.1)

/-- `os.Stat` succeeding: the path names a file or a directory. -/
def pathExists (fs : FileSys) (p : GoStr) : Bool :=
  decide (p ∈ fileNames fs) || decide (p ∈ fs.dirs)

/-- `os.WriteFile`: create or overwrite. -/
def writeFileFS (fs : FileSys) (p content : GoStr) : FileSys :=
  if p ∈ fileNames fs then
    { fs with files := fs.files.map (fun kv => if kv.1 = p then (p, content) else kv) }
  else { fs with files := fs.files ++ [(p, content)] }

/-- `os.MkdirAll`. -/
def mkdirAllFS (fs : FileSys) (p : GoStr) : FileSys :=
  if p ∈ fs.dirs then fs else { fs with dirs := fs.dirs ++ [p] }

/-- `filepath.Join` for already-clean segments. -/
def joinPath (a b : GoStr) : GoStr := a ++ gs "/" ++ b

/-- `filepath.Ext`: from the final dot of the final path element to the
end; empty when the final element has no dot. -/
def filepathExt (p : GoStr) : GoStr :=
  let revComp := p.reverse.takeWhile (fun c => decide (c ≠ '/'))
  if revComp.any (fun c => decide (c = '.')) then
    (revComp.takeWhile (fun c => decide (c ≠ '.')) ++ ['.']).reverse
  else []

/-- One counter insertion of the duplicate-name loop:
`fmt.Sprintf("%s_%d%s", base, counter, ext)` with
`base = strings.TrimSuffix(originalPath, ext)`. -/
def insertCounterPath (orig : GoStr) (counter : Nat) : GoStr :=
  let ext := filepathExt orig
  let base := trimSuffixStr orig ext
  base ++ gs "_" ++ natStr counter ++ ext

/-- The `for { if stat fails break ... counter++ }` probe loop, with
explicit fuel (Go's loop is unbounded; over a finite filesystem and with
pairwise-distinct candidates the fuel below always suffices). -/
def probeLoop (fs : FileSys) (orig : GoStr) : Nat → Nat → GoStr → GoStr
  | 0, _, cur => cur
  | fuel + 1, counter, cur =>
    if pathExists fs cur then
      probeLoop fs orig fuel (counter + 1) (insertCounterPath orig counter)
    else cur

/-- Resolve the attachment path against the filesystem as the probe loop
does, starting at counter 1. -/
def resolveAttachmentPath (fs : FileSys) (orig : GoStr) : GoStr :=
  probeLoop fs orig (fs.files.length + fs.dirs.length + 1) 1 orig

/-- Go `CreateEmailFolder` (final version): plan the folder from the
prefix, reuse it when present, create it otherwise. -/
def CreateEmailFolder (now : DateTime) (fs : FileSys) (email : EmailMessage)
    (outputDir : GoStr) : FileSys × GoStr :=
  let folderName := generateFilePrefix now email
  let folderPath := joinPath outputDir folderName
  if pathExists fs folderPath then (fs, folderPath)
  else (mkdirAllFS fs folderPath, folderPath)

/-- Header block of the metadata file; Go iterates its header map in
unspecified order, modelled as the association list's order. -/
def headersLines (hs : List (GoStr × GoStr)) : GoStr :=
  hs.foldl (fun acc kv => acc ++ kv.1 ++ gs ": " ++ kv.2 ++ gs "\n") []

/-- Per-attachment metadata lines (1-based index). -/
def attachmentLines : Nat → List Attachment → GoStr
  | _, [] => []
  | i, a :: t =>
    gs "  " ++ natStr (i + 1) ++ gs ". " ++ a.filename ++ gs " (" ++
      a.mimeType ++ gs ", " ++ intStr a.size ++ gs " bytes)\n" ++
      attachmentLines (i + 1) t

/-- The metadata file's content. -/
def metadataContent (email : EmailMessage) : GoStr :=
  gs "Email ID: " ++ email.id ++ gs "\nSubject: " ++ email.subject ++
    gs "\nFrom: " ++ email.fromAddr ++ gs "\nTo: " ++ email.toAddr ++
    gs "\nDate: " ++ email.date ++ gs "\nBody MIME Type: " ++
    email.bodyMimeType ++ gs "\nAttachments: " ++
    natStr email.attachments.length ++ gs "\n\nHeaders:\n" ++
    headersLines email.headers ++
    (if email.attachments.length > 0 then
      gs "\nAttachments:\n" ++ attachmentLines 0 email.attachments
    else [])

/-- The attachment loop of `WriteEmail`: name, sanitize, fall back to
`attachment_<i+1>`, probe for a free path, write; returns the updated
filesystem and the paths written, in order. -/
def writeAttachmentsLoop (fpfx folderPath : GoStr) :
    FileSys → Nat → List Attachment → FileSys × List GoStr
  | fs, _, [] => (fs, [])
  | fs, i, a :: t =>
    let fn0 := if a.filename = [] then gs "attachment_" ++ natStr (i + 1)
      else a.filename
    let fn1 := sanitizeForFilename fn0
    let fn2 := if fn1 = [] then gs "attachment_" ++ natStr (i + 1) else fn1
    let attachmentFilename := fpfx ++ gs "_" ++ fn2
    let orig := joinPath folderPath attachmentFilename
    let path := resolveAttachmentPath fs orig
    let fs2 := writeFileFS fs path a.data
    let next := writeAttachmentsLoop fpfx folderPath fs2 (i + 1) t
    (next.1, path :: next.2)

/-- Go `WriteEmail` (final version): folder, `{prefix}_metadata.txt`,
`{prefix}_body.html`, then the attachments; `Chtimes` at the end touches
no path.  Returns the filesystem, the folder path and the attachment
paths written. -/
def WriteEmail (now : DateTime) (fs : FileSys) (email : EmailMessage)
    (outputDir : GoStr) : FileSys × GoStr × List GoStr :=
  let r1 := CreateEmailFolder now fs email outputDir
  let folderPath := r1.2
  let fpfx := generateFilePrefix now email
  let metadataPath := joinPath folderPath (fpfx ++ gs "_metadata.txt")
  let fs2 := writeFileFS r1.1 metadataPath (metadataContent email)
  let bodyPath := joinPath folderPath (fpfx ++ gs "_body.html")
  let fs3 := writeFileFS fs2 bodyPath email.body
  let r4 := writeAttachmentsLoop fpfx folderPath fs3 0 email.attachments
  (r4.1, folderPath, r4.2)

/-! ## Path facts for the duplicate-name probe -/

theorem takeWhile_dot_prefix (l : GoStr)
    (h : l.any (fun c => decide (c = '.')) = true) :
    (l.takeWhile (fun c => decide (c ≠ '.')) ++ ['.']) <+: l := by
  induction l with
  | nil => simp at h
  | cons c t ih =>
    by_cases hc : c = '.'
    · subst hc
      refine ⟨t, ?_⟩
      simp [List.takeWhile]
    · have ht : t.any (fun c => decide (c = '.')) = true := by
        simpa [hc] using h
      have : (c :: t).takeWhile (fun c => decide (c ≠ '.')) =
          c :: t.takeWhile (fun c => decide (c ≠ '.')) := by
        simp [List.takeWhile, hc]
      rw [this, List.cons_append, List.cons_prefix_cons]
      exact ⟨rfl, ih ht⟩

theorem filepathExt_suffix (p : GoStr) : filepathExt p <:+ p := by
  unfold filepathExt
  by_cases h : (p.reverse.takeWhile (fun c => decide (c ≠ '/'))).any
      (fun c => decide (c = '.')) = true
  · rw [if_pos h]
    have h1 := takeWhile_dot_prefix _ h
    have h2 : (p.reverse.takeWhile (fun c => decide (c ≠ '/'))) <+: p.reverse :=
      List.takeWhile_prefix _
    have h3 := h1.trans h2
    have h4 := List.reverse_suffix.mpr h3
    simpa using h4
  · rw [if_neg h]
    exact List.nil_suffix

theorem trimSuffix_append_of_suffix {p ext : GoStr} (h : ext <:+ p) :
    trimSuffixStr p ext ++ ext = p := by
  obtain ⟨pre, rfl⟩ := h
  unfold trimSuffixStr
  rw [if_pos (by exact List.isSuffixOf_iff_suffix.mpr (List.suffix_append pre ext))]
  rw [List.length_append, Nat.add_sub_cancel, List.take_left]

theorem insertCounterPath_length (p : GoStr) (c : Nat) :
    (insertCounterPath p c).length = p.length + 1 + (natStr c).length := by
  unfold insertCounterPath
  have h := trimSuffix_append_of_suffix (filepathExt_suffix p)
  have hlen : (trimSuffixStr p (filepathExt p)).length + (filepathExt p).length
      = p.length := by
    rw [← List.length_append, h]
  simp only [List.length_append]
  have hg : (gs "_").length = 1 := rfl
  omega

theorem insertCounterPath_ne (p : GoStr) (c : Nat) : insertCounterPath p c ≠ p := by
  intro he
  have := congrArg List.length he
  rw [insertCounterPath_length] at this
  omega

theorem joinPath_length (a b : GoStr) :
    (joinPath a b).length = a.length + 1 + b.length := by
  have hg : (gs "/").length = 1 := rfl
  simp only [joinPath, List.length_append, hg]

theorem joinPath_ne_left (a b : GoStr) : joinPath a b ≠ a := by
  intro he
  have := congrArg List.length he
  rw [joinPath_length] at this
  omega

theorem fileNames_writeFileFS (fs : FileSys) (p content : GoStr) (q : GoStr) :
    q ∈ fileNames (writeFileFS fs p content) ↔ q ∈ fileNames fs ∨ q = p := by
  by_cases h : p ∈ fileNames fs
  · have hthen : fileNames (writeFileFS fs p content) = fileNames fs := by
      unfold writeFileFS
      rw [if_pos h]
      show (fs.files.map (fun kv => if kv.1 = p then (p, content) else kv)).map
        (·.1) = _
      rw [List.map_map]
      exact List.map_congr_left
        (fun kv _ => by by_cases hkv : kv.1 = p <;> simp [hkv])
    rw [hthen]
    constructor
    · exact Or.inl
    · rintro (hq | rfl)
      · exact hq
      · exact h
  · have hthen : fileNames (writeFileFS fs p content) = fileNames fs ++ [p] := by
      unfold writeFileFS
      rw [if_neg h]
      show (fs.files ++ [(p, content)]).map (·.1) = _
      simp [fileNames]
    rw [hthen]
    simp

theorem dirs_writeFileFS (fs : FileSys) (p content : GoStr) :
    (writeFileFS fs p content).dirs = fs.dirs := by
  unfold writeFileFS
  split <;> rfl

theorem fileNames_mkdirAllFS (fs : FileSys) (p : GoStr) :
    fileNames (mkdirAllFS fs p) = fileNames fs := by
  unfold mkdirAllFS
  split <;> rfl

theorem dirs_mkdirAllFS (fs : FileSys) (p q : GoStr)
    (h : q ∈ (mkdirAllFS fs p).dirs) : q ∈ fs.dirs ∨ q = p := by
  unfold mkdirAllFS at h
  split at h
  · exact Or.inl h
  · simpa using h

theorem pathExists_iff (fs : FileSys) (q : GoStr) :
    pathExists fs q = true ↔ q ∈ fileNames fs ∨ q ∈ fs.dirs := by
  simp [pathExists]

theorem probeLoop_succ (fs : FileSys) (orig : GoStr) (fuel counter : Nat)
    (cur : GoStr) :
    probeLoop fs orig (fuel + 1) counter cur =
      if pathExists fs cur then
        probeLoop fs orig fuel (counter + 1) (insertCounterPath orig counter)
      else cur := rfl

theorem resolveAttachmentPath_free (fs : FileSys) (p : GoStr)
    (h : pathExists fs p = false) : resolveAttachmentPath fs p = p := by
  unfold resolveAttachmentPath
  rw [probeLoop_succ, h]
  rfl

theorem resolveAttachmentPath_second (fs : FileSys) (p : GoStr)
    (h1 : pathExists fs p = true)
    (h2 : pathExists fs (insertCounterPath p 1) = false)
    (hfuel : 1 ≤ fs.files.length + fs.dirs.length) :
    resolveAttachmentPath fs p = insertCounterPath p 1 := by
  unfold resolveAttachmentPath
  obtain ⟨k, hk⟩ : ∃ k, fs.files.length + fs.dirs.length = k + 1 :=
    ⟨fs.files.length + fs.dirs.length - 1, by omega⟩
  rw [hk, probeLoop_succ, h1]
  simp only [if_true]
  rw [probeLoop_succ, h2]
  rfl

/-- Planned folder path of a message (§4.6/§4.7). -/
def plannedFolderPath (now : DateTime) (email : EmailMessage)
    (outputDir : GoStr) : GoStr :=
  joinPath outputDir (generateFilePrefix now email)

/-- Planned path of an attachment of sanitized name `fn`. -/
def plannedAttachmentPath (now : DateTime) (email : EmailMessage)
    (outputDir fn : GoStr) : GoStr :=
  joinPath (plannedFolderPath now email outputDir)
    (generateFilePrefix now email ++ gs "_" ++ fn)

/-- Planned path of the metadata file. -/
def plannedMetadataPath (now : DateTime) (email : EmailMessage)
    (outputDir : GoStr) : GoStr :=
  joinPath (plannedFolderPath now email outputDir)
    (generateFilePrefix now email ++ gs "_metadata.txt")

/-- Planned path of the body file. -/
def plannedBodyPath (now : DateTime) (email : EmailMessage)
    (outputDir : GoStr) : GoStr :=
  joinPath (plannedFolderPath now email outputDir)
    (generateFilePrefix now email ++ gs "_body.html")

theorem pathExists_false_iff (fs : FileSys) (q : GoStr) :
    pathExists fs q = false ↔ q ∉ fileNames fs ∧ q ∉ fs.dirs := by
  simp [pathExists]

/-- C8 (amended): within one message, two attachments sharing one
non-empty sanitized filename — one that does not collide with the
reserved `{prefix}_metadata.txt` / `{prefix}_body.html` names or their
first suffixed variant, on an initially free location — yield two
distinct files: the first keeps `{prefix}_{fn}`, the second gets the
`_1` counter inserted before its extension by the filesystem probe. -/
theorem C8_duplicate_attachment_names_amended
    (now : DateTime) (fs : FileSys) (email : EmailMessage)
    (outputDir fn : GoStr) (a1 a2 : Attachment)
    (hatt : email.attachments = [a1, a2])
    (h1 : a1.filename ≠ []) (h2 : a2.filename ≠ [])
    (hs1 : sanitizeForFilename a1.filename = fn)
    (hs2 : sanitizeForFilename a2.filename = fn)
    (hfn : fn ≠ [])
    (hfresh0 : pathExists fs (plannedAttachmentPath now email outputDir fn) = false)
    (hfresh1 : pathExists fs
      (insertCounterPath (plannedAttachmentPath now email outputDir fn) 1) = false)
    (hnm0 : plannedAttachmentPath now email outputDir fn ≠
      plannedMetadataPath now email outputDir)
    (hnb0 : plannedAttachmentPath now email outputDir fn ≠
      plannedBodyPath now email outputDir)
    (hnm1 : insertCounterPath (plannedAttachmentPath now email outputDir fn) 1 ≠
      plannedMetadataPath now email outputDir)
    (hnb1 : insertCounterPath (plannedAttachmentPath now email outputDir fn) 1 ≠
      plannedBodyPath now email outputDir) :
    (WriteEmail now fs email outputDir).2.2 =
      [plannedAttachmentPath now email outputDir fn,
        insertCounterPath (plannedAttachmentPath now email outputDir fn) 1] ∧
      plannedAttachmentPath now email outputDir fn ≠
        insertCounterPath (plannedAttachmentPath now email outputDir fn) 1 := by
  obtain ⟨hP1, hP2⟩ := (pathExists_false_iff _ _).mp hfresh0
  obtain ⟨hQ1, hQ2⟩ := (pathExists_false_iff _ _).mp hfresh1
  have hfolder2 : (CreateEmailFolder now fs email outputDir).2 =
      plannedFolderPath now email outputDir := by
    unfold CreateEmailFolder plannedFolderPath
    dsimp only
    split <;> rfl
  have hnamesC : fileNames (CreateEmailFolder now fs email outputDir).1 =
      fileNames fs := by
    unfold CreateEmailFolder
    dsimp only
    split
    · rfl
    · exact fileNames_mkdirAllFS fs _
  have hdirsC : ∀ q, q ∈ (CreateEmailFolder now fs email outputDir).1.dirs →
      q ∈ fs.dirs ∨ q = plannedFolderPath now email outputDir := by
    intro q hq
    unfold CreateEmailFolder at hq
    dsimp only at hq
    split at hq
    · exact Or.inl hq
    · unfold plannedFolderPath
      exact dirs_mkdirAllFS fs _ q hq
  -- abbreviations
  set P := plannedAttachmentPath now email outputDir fn with hPdef
  set Q := insertCounterPath P 1 with hQdef
  set fp := plannedFolderPath now email outputDir with hfpdef
  set Pm := plannedMetadataPath now email outputDir with hPmdef
  set Pb := plannedBodyPath now email outputDir with hPbdef
  have hPfp : P ≠ fp := by
    rw [hPdef, hfpdef]
    unfold plannedAttachmentPath
    exact joinPath_ne_left _ _
  have hQfp : Q ≠ fp := by
    intro he
    have hl := congrArg List.length he
    rw [hQdef, insertCounterPath_length] at hl
    have hPlen : P.length = fp.length + 1 +
        (generateFilePrefix now email ++ gs "_" ++ fn).length := by
      rw [hPdef, hfpdef]
      unfold plannedAttachmentPath
      rw [joinPath_length]
    omega
  have hQP : Q ≠ P := by
    rw [hQdef]
    exact insertCounterPath_ne P 1
  -- the filesystem after the metadata and body writes
  set fs3 := writeFileFS
    (writeFileFS (CreateEmailFolder now fs email outputDir).1 Pm
      (metadataContent email)) Pb email.body with hfs3
  have hnames3 : ∀ q, q ∈ fileNames fs3 ↔
      (q ∈ fileNames fs ∨ q = Pm) ∨ q = Pb := by
    intro q
    rw [hfs3, fileNames_writeFileFS, fileNames_writeFileFS, hnamesC]
  have hdirs3 : fs3.dirs = (CreateEmailFolder now fs email outputDir).1.dirs := by
    rw [hfs3, dirs_writeFileFS, dirs_writeFileFS]
  have hex3 : pathExists fs3 P = false := by
    rw [pathExists_false_iff]
    refine ⟨?_, ?_⟩
    · intro hmem
      rcases (hnames3 P).mp hmem with (hmem | hmem) | hmem
      · exact hP1 hmem
      · exact hnm0 hmem
      · exact hnb0 hmem
    · intro hmem
      rw [hdirs3] at hmem
      rcases hdirsC P hmem with hmem | hmem
      · exact hP2 hmem
      · exact hPfp hmem
  set fs4 := writeFileFS fs3 P a1.data with hfs4
  have hmemP4 : P ∈ fileNames fs4 := by
    rw [hfs4, fileNames_writeFileFS]
    exact Or.inr rfl
  have hex4 : pathExists fs4 P = true := by
    simp [pathExists, hmemP4]
  have hexQ4 : pathExists fs4 Q = false := by
    rw [pathExists_false_iff]
    refine ⟨?_, ?_⟩
    · intro hmem
      rw [hfs4, fileNames_writeFileFS] at hmem
      rcases hmem with hmem | hmem
      · rcases (hnames3 Q).mp hmem with (hmem | hmem) | hmem
        · exact hQ1 hmem
        · exact hnm1 hmem
        · exact hnb1 hmem
      · exact hQP hmem
    · intro hmem
      rw [hfs4, dirs_writeFileFS, hdirs3] at hmem
      rcases hdirsC Q hmem with hmem | hmem
      · exact hQ2 hmem
      · exact hQfp hmem
  have hfuel : 1 ≤ fs4.files.length + fs4.dirs.length := by
    have hne : fs4.files ≠ [] := by
      intro he
      rw [fileNames, he] at hmemP4
      simp at hmemP4
    have := List.length_pos.mpr hne
    omega
  have hres1 : resolveAttachmentPath fs3 P = P := resolveAttachmentPath_free _ _ hex3
  have hres2 : resolveAttachmentPath fs4 P = Q := by
    rw [hQdef]
    exact resolveAttachmentPath_second _ _ hex4 hexQ4 hfuel
  refine ⟨?_, fun he => hQP he.symm⟩
  -- unfold WriteEmail and the two loop iterations
  show (WriteEmail now fs email outputDir).2.2 = [P, Q]
  unfold WriteEmail
  dsimp only
  rw [hfolder2, hatt]
  have hPmfold : joinPath fp (generateFilePrefix now email ++ gs "_metadata.txt")
      = Pm := by
    rw [hPmdef, hfpdef]
    rfl
  have hPbfold : joinPath fp (generateFilePrefix now email ++ gs "_body.html")
      = Pb := by
    rw [hPbdef, hfpdef]
    rfl
  rw [hPmfold, hPbfold]
  unfold writeAttachmentsLoop
  dsimp only
  rw [if_neg h1, hs1, if_neg hfn]
  have hPfold : joinPath fp (generateFilePrefix now email ++ gs "_" ++ fn) = P := by
    rw [hPdef, hfpdef]
    rfl
  rw [hPfold, ← hfs3, hres1]
  unfold writeAttachmentsLoop
  dsimp only
  rw [if_neg h2, hs2, if_neg hfn, hPfold, ← hfs4, hres2]
  rfl

/-- Example message carrying the given attachments. -/
def emailTwoAtt (atts : List Attachment) : EmailMessage :=
  { id := gs "m1", subject := gs "Hi",
    date := gs "Mon, 2 Jan 2006 15:04:05 -0700",
    fromAddr := [], toAddr := [], body := gs "B",
    bodyMimeType := gs "text/html", headers := [], attachments := atts }

/-- An attachment named `report.pdf`. -/
def attRepEx : Attachment :=
  ⟨gs "report.pdf", gs "application/pdf", 3, gs "abc", gs "id2"⟩

/-- An attachment named `metadata.txt`. -/
def attMetaEx : Attachment :=
  ⟨gs "metadata.txt", gs "text/plain", 3, gs "abc", gs "id1"⟩

/-- A filesystem holding only the output directory. -/
def fsOutOnly : FileSys := ⟨[], [gs "out"]⟩

/-- A fixed wall clock (never consulted: the example date parses). -/
def nowEx : DateTime := ⟨2000, 1, 1, 0, 0, 0⟩

/-- C8 counterexample: two attachments both named `metadata.txt` in an
initially fresh folder.  The claim says the first keeps
`{prefix}_metadata.txt`; in fact that path is already taken by the
metadata file `WriteEmail` wrote moments earlier, so the probe gives the
first attachment `_1` and the second `_2` — the first written attachment
path differs from the claimed one. -/
theorem C8_counterexample :
    (WriteEmail nowEx fsOutOnly (emailTwoAtt [attMetaEx, attMetaEx])
        (gs "out")).2.2 =
      [gs "out/2006-01-02_15-04-05_Hi/2006-01-02_15-04-05_Hi_metadata_1.txt",
        gs "out/2006-01-02_15-04-05_Hi/2006-01-02_15-04-05_Hi_metadata_2.txt"] ∧
    (WriteEmail nowEx fsOutOnly (emailTwoAtt [attMetaEx, attMetaEx])
        (gs "out")).2.2.head? ≠
      some (plannedAttachmentPath nowEx (emailTwoAtt [attMetaEx, attMetaEx])
        (gs "out") (gs "metadata.txt")) := by
  decide

theorem C8_duplicate_attachment_names_amended_witness :
    (WriteEmail nowEx fsOutOnly (emailTwoAtt [attRepEx, attRepEx])
        (gs "out")).2.2 =
      [plannedAttachmentPath nowEx (emailTwoAtt [attRepEx, attRepEx]) (gs "out")
          (gs "report.pdf"),
        insertCounterPath (plannedAttachmentPath nowEx
          (emailTwoAtt [attRepEx, attRepEx]) (gs "out") (gs "report.pdf")) 1] ∧
      plannedAttachmentPath nowEx (emailTwoAtt [attRepEx, attRepEx]) (gs "out")
          (gs "report.pdf") ≠
        insertCounterPath (plannedAttachmentPath nowEx
          (emailTwoAtt [attRepEx, attRepEx]) (gs "out") (gs "report.pdf")) 1 :=
  C8_duplicate_attachment_names_amended nowEx fsOutOnly
    (emailTwoAtt [attRepEx, attRepEx]) (gs "out") (gs "report.pdf")
    attRepEx attRepEx rfl (by decide) (by decide) (by decide) (by decide)
    (by decide) (by decide) (by decide) (by decide) (by decide) (by decide)
    (by decide)

/-! ## Message retrieval client (part_006, `ListMessages` / `GetMessage`) -/

/-- The client: an opaque connected-service handle (set by `Connect`)
and the fixed user id. -/
structure Client where
  service : Option Unit
  userID : GoStr
deriving DecidableEq

/-- Go `NewClient`: no service yet. -/
def NewClient : Client := ⟨none, gs "me"⟩

/-- One remote call the client can issue. -/
inductive RemoteCall where
  | listPage (pageToken : GoStr) (pageSize : Int)
  | getMsg (id : GoStr)
deriving DecidableEq

/-- The raw fetched message: id and root part. -/
structure RawMessage where
  id : GoStr
  payload : MessagePart

/-- The pagination loop of `ListMessages`.  `pages` is the remote
listing oracle (token, page size) to (message ids, next token) or
error; `fuel` bounds the iterations (Go's loop has no such bound and
can spin on a pathological server that returns empty pages with
tokens). -/
def listMessagesLoop
    (pages : GoStr → Int → Except GoError (List GoStr × GoStr)) :
    Nat → GoStr → Int → List GoStr → List RemoteCall →
      List RemoteCall × Except GoError (List GoStr)
  | fuel, pageToken, remaining, acc, calls =>
    if remaining ≤ 0 then (calls, .ok acc)
    else
      match fuel with
      | 0 => (calls, .ok acc)
      | fuel2 + 1 =>
        let pageSize := if remaining > 500 then 500 else remaining
        match pages pageToken pageSize with
        | .error e =>
          (calls ++ [.listPage pageToken pageSize],
            .error (.otherError (gs "unable to retrieve messages: " ++
              e.description)))
        | .ok resp =>
          let acc2 := acc ++ resp.1
          let remaining2 := remaining - resp.1.length
          let calls2 := calls ++ [.listPage pageToken pageSize]
          if resp.2 = [] ∨ remaining2 ≤ 0 then (calls2, .ok acc2)
          else listMessagesLoop pages fuel2 resp.2 remaining2 acc2 calls2

/-- Go `ListMessages`: guard on the connected service, then paginate.
Returns the (unchanged) client, the remote calls issued, and the ids. -/
def ListMessages (c : Client)
    (pages : GoStr → Int → Except GoError (List GoStr × GoStr))
    (fuel : Nat) (maxResults : Int) :
    Client × List RemoteCall × Except GoError (List GoStr) :=
  if c.service = none then
    (c, [], .error (.otherError (gs "gmail service not connected")))
  else (c, listMessagesLoop pages fuel [] maxResults [] [])

/-- Go map `email.Headers` insertion (last-wins). -/
def strMapSet (m : List (GoStr × GoStr)) (k v : GoStr) :
    List (GoStr × GoStr) :=
  match m with
  | [] => [(k, v)]
  | (k2, v2) :: t => if k2 = k then (k, v) :: t else (k2, v2) :: strMapSet t k v

/-- The header loop of `GetMessage`: record each header in the map and
mirror Subject/From/To/Date into the fields (later headers win). -/
def applyHeaders : List MessagePartHeader → EmailMessage → EmailMessage
  | [], e => e
  | h :: t, e =>
    let e1 := { e with headers := strMapSet e.headers h.name h.value }
    let lower := goToLower h.name
    let e2 :=
      if lower = gs "subject" then { e1 with subject := h.value }
      else if lower = gs "from" then { e1 with fromAddr := h.value }
      else if lower = gs "to" then { e1 with toAddr := h.value }
      else if lower = gs "date" then { e1 with date := h.value }
      else e1
    applyHeaders t e2

/-- Assemble the `EmailMessage` from a fetched raw message: headers,
body (via `extractBody`), attachments (via `extractAttachments`). -/
def buildEmail (env : GmailEnv) (msg : RawMessage) : EmailMessage :=
  let e0 : EmailMessage :=
    { id := msg.id, subject := [], date := [], fromAddr := [], toAddr := [],
      body := [], bodyMimeType := [], headers := [], attachments := [] }
  let e1 := applyHeaders msg.payload.headers e0
  let bodyPair := extractBody msg.payload
  let e2 := { e1 with body := bodyPair.1, bodyMimeType := bodyPair.2 }
  { e2 with attachments := extractAttachments env msg.id msg.payload }

/-- Go `GetMessage`: guard on the connected service, fetch with one
retry for retryable errors (the per-attempt oracle is deterministic, so
a retried failure repeats), then assemble the message. -/
def GetMessage (c : Client) (env : GmailEnv)
    (msgFetch : GoStr → Except GoError RawMessage) (messageID : GoStr) :
    Client × List RemoteCall × Except GoError EmailMessage :=
  if c.service = none then
    (c, [], .error (.otherError (gs "gmail service not connected")))
  else
    match msgFetch messageID with
    | .error e =>
      if isRetryableError (some e) then
        match msgFetch messageID with
        | .error e2 =>
          (c, [.getMsg messageID, .getMsg messageID],
            .error (.otherError (gs "unable to retrieve message " ++ messageID ++
              gs " after retry: " ++ e2.description)))
        | .ok msg =>
          (c, [.getMsg messageID, .getMsg messageID], .ok (buildEmail env msg))
      else
        (c, [.getMsg messageID],
          .error (.otherError (gs "unable to retrieve message " ++ messageID ++
            gs ": " ++ e.description)))
    | .ok msg => (c, [.getMsg messageID], .ok (buildEmail env msg))

/-- C10: calling `ListMessages` or `GetMessage` on a client whose
`Connect` has not succeeded (no service handle) returns the
`gmail service not connected` error, issues no remote call (the trace is
empty and the result is the same whatever the remote oracles), and
leaves the client value unchanged. -/
theorem C10_not_connected_guard (c : Client) (hc : c.service = none) :
    (∀ pages fuel maxResults,
      ListMessages c pages fuel maxResults =
        (c, [], .error (.otherError (gs "gmail service not connected")))) ∧
    (∀ env msgFetch messageID,
      GetMessage c env msgFetch messageID =
        (c, [], .error (.otherError (gs "gmail service not connected")))) := by
  constructor
  · intro pages fuel maxResults
    unfold ListMessages
    rw [if_pos hc]
  · intro env msgFetch messageID
    unfold GetMessage
    rw [if_pos hc]

theorem C10_not_connected_guard_witness :
    ListMessages NewClient (fun _ _ => .error (.otherError [])) 5 100 =
      (NewClient, [], .error (.otherError (gs "gmail service not connected"))) ∧
    GetMessage NewClient ⟨false, fun _ => .error (.otherError [])⟩
        (fun _ => .error (.otherError [])) (gs "x") =
      (NewClient, [], .error (.otherError (gs "gmail service not connected"))) :=
  ⟨(C10_not_connected_guard NewClient rfl).1 _ 5 100,
    (C10_not_connected_guard NewClient rfl).2 _ _ (gs "x")⟩

/-! ## The download run (cmd/download.go, final version) -/

/-- Modelled from the spec: `GenerateFolderName` is called by
`runDownload` (cmd/download.go line 130) and documented by the repo
("Uses GenerateFolderName() to predict folder location without I/O
operations"), but its definition is not among the staged source files.
Per §4.6 the predicted folder name is exactly the name prefix of §4.6,
which part_005 implements as `generateFilePrefix`. -/
def GenerateFolderName (now : DateTime) (email : EmailMessage) : GoStr :=
  generateFilePrefix now email

/-- Observable events of one run, in order. -/
inductive RunEvent where
  | fetchEv (id : GoStr)
  | skipEv (id : GoStr)
  | mkdirEv (path : GoStr)
  | wroteEv (id : GoStr)
  | failEv (id : GoStr)
deriving DecidableEq

/-- Ambient behaviour of one run: the wall clock, the per-message fetch
(the client's `GetMessage`, its internal retry included), the
`filepath.Glob(folderPath/*_metadata.txt)` hit test, and whether
`WriteEmail` succeeds for a message.  `DEBUG_EMAIL_ID` is unset. -/
structure RunEnv where
  now : DateTime
  getMessage : GoStr → Except GoError EmailMessage
  metadataGlobHit : GoStr → Bool
  writeOk : GoStr → Bool

/-- Counters, events and log lines accumulated over the message loop. -/
structure RunState where
  processed : Nat
  skipped : Nat
  failed : Nat
  events : List RunEvent
  logs : List GoStr
deriving DecidableEq

/-- One iteration of the message loop of `runDownload`: fetch; on fetch
error count a failure; otherwise predict the folder, glob for an
existing `*_metadata.txt` and skip on a hit; otherwise write (the
folder is created inside `WriteEmail`), counting success or failure.
The rate-limit sleep and the context-cancellation check are real-time
constructs, not modelled. -/
def processOne (env : RunEnv) (outputDir : GoStr) (st : RunState)
    (id : GoStr) : RunState :=
  match env.getMessage id with
  | .error e =>
    { st with
        failed := st.failed + 1
        events := st.events ++ [.fetchEv id]
        logs := st.logs ++ [gs "Failed to get message " ++ id ++ gs ": " ++
          e.description] }
  | .ok email =>
    let folderName := GenerateFolderName env.now email
    let folderPath := joinPath outputDir folderName
    if env.metadataGlobHit folderPath then
      { st with
          skipped := st.skipped + 1
          events := st.events ++ [.fetchEv id, .skipEv id]
          logs := st.logs ++ [gs "Email " ++ id ++
            gs " already downloaded, skipping"] }
    else if env.writeOk id then
      { st with
          processed := st.processed + 1
          events := st.events ++ [.fetchEv id, .mkdirEv folderPath, .wroteEv id] }
    else
      { st with
          failed := st.failed + 1
          events := st.events ++ [.fetchEv id, .mkdirEv folderPath, .failEv id]
          logs := st.logs ++ [gs "Failed to write message " ++ id] }

/-- The final summary line of `runDownload`. -/
def mkSummary (processed skipped failed : Nat) (outputDir : GoStr) : GoStr :=
  gs "Download completed. Processed: " ++ natStr processed ++
    gs ", Skipped: " ++ natStr skipped ++ gs ", Failed: " ++ natStr failed ++
    gs ". Emails saved to: " ++ outputDir

/-- Result of one run: the three counters, the events, the summary line
(present once the loop completed) and the run-level error, if any. -/
structure RunResult where
  processed : Nat
  skipped : Nat
  failed : Nat
  events : List RunEvent
  summary : Option GoStr
  outcome : Option GoStr
deriving DecidableEq

/-- Go `runDownload` (final version): connect, list, loop over the
listed ids, report the summary, and fail the whole run exactly when
everything failed.  Validation, env loading and the `DEBUG_EMAIL_ID`
mode are excluded collaborators; the run-level context timeout is a
real-time construct, not modelled. -/
def runDownload (env : RunEnv) (connectResult : Option GoError)
    (listResult : Except GoError (List GoStr)) (outputDir : GoStr) :
    RunResult :=
  match connectResult with
  | some e => ⟨0, 0, 0, [], none, some e.description⟩
  | none =>
    match listResult with
    | .error e => ⟨0, 0, 0, [], none, some e.description⟩
    | .ok ids =>
      let st := ids.foldl (processOne env outputDir) ⟨0, 0, 0, [], []⟩
      let summary := mkSummary st.processed st.skipped st.failed outputDir
      if st.processed = 0 ∧ st.skipped = 0 ∧ st.failed > 0 then
        ⟨st.processed, st.skipped, st.failed, st.events, some summary,
          some (gs "all email downloads failed")⟩
      else
        ⟨st.processed, st.skipped, st.failed, st.events, some summary, none⟩

/-- C9: once the message loop has run (connect and listing succeeded),
the run returns an error exactly when the processed and skipped counts
are zero and the failed count is positive; in every other combination it
succeeds, and the three counts are reported in the final summary line. -/
theorem C9_run_error_iff (env : RunEnv) (ids : List GoStr)
    (outputDir : GoStr) :
    ((runDownload env none (.ok ids) outputDir).outcome.isSome ↔
      (runDownload env none (.ok ids) outputDir).processed = 0 ∧
        (runDownload env none (.ok ids) outputDir).skipped = 0 ∧
        0 < (runDownload env none (.ok ids) outputDir).failed) ∧
    (runDownload env none (.ok ids) outputDir).summary =
      some (mkSummary (runDownload env none (.ok ids) outputDir).processed
        (runDownload env none (.ok ids) outputDir).skipped
        (runDownload env none (.ok ids) outputDir).failed outputDir) := by
  unfold runDownload
  dsimp only
  by_cases h : (ids.foldl (processOne env outputDir) ⟨0, 0, 0, [], []⟩).processed
      = 0 ∧ (ids.foldl (processOne env outputDir) ⟨0, 0, 0, [], []⟩).skipped = 0 ∧
      (ids.foldl (processOne env outputDir) ⟨0, 0, 0, [], []⟩).failed > 0
  · rw [if_pos h]
    refine ⟨?_, rfl⟩
    simp only [Option.isSome_some, true_iff]
    exact h
  · rw [if_neg h]
    refine ⟨?_, rfl⟩
    simp only [Option.isSome_none, Bool.false_eq_true, false_iff]
    exact h

/-- Fetch-then-skip environment: every message's planned folder already
holds a `*_metadata.txt`. -/
def envAllDownloaded : RunEnv :=
  { now := nowEx,
    getMessage := fun _ => .ok (emailTwoAtt []),
    metadataGlobHit := fun _ => true,
    writeOk := fun _ => true }

/-- C1 evaluation at the failing input: with one listed message whose
planned folder already holds a metadata file, the run still issues the
per-message fetch — the event trace is `[fetch m1, skip m1]`, the skip
decision coming only after the fetch; the claim (and the repo's own
documentation) say an already-downloaded item is skipped before any
per-message remote call.  (No folder is created on the skip path, so
that half of the claim does hold.) -/
theorem C1_fetch_precedes_skip :
    (runDownload envAllDownloaded none (.ok [gs "m1"]) (gs "out")).events =
      [.fetchEv (gs "m1"), .skipEv (gs "m1")] ∧
    (runDownload envAllDownloaded none (.ok [gs "m1"]) (gs "out")).skipped = 1 ∧
    (runDownload envAllDownloaded none (.ok [gs "m1"]) (gs "out")).outcome
      = none := by
  decide
